import Mathlib

/-!
Verification development for the bitswap exchange core: the decision
engine's peer request queue (`prq`), the client worker's priority
assignment, the peer manager's coalescing send queue, and the
`HasBlock`/`GetBlocks`/`Close` surface of the `Bitswap` type.

Go maps are modelled as association lists, Go pointers to shared task
records as numeric ids into a task store, and the two `pq` binary heaps
as comparator-based selection over lists (the heap pops an element that
is maximal for its comparator; ties resolve deterministically).
-/

namespace Bitswap

/-! ### Association-list helpers (Go map model) -/

def alookup [DecidableEq κ] (k : κ) : List (κ × β) → Option β
  | [] => none
  | kv :: rest => if kv.1 = k then some kv.2 else alookup k rest

def upd [DecidableEq κ] (k : κ) (f : β → β) : List (κ × β) → List (κ × β)
  | [] => []
  | kv :: rest => if kv.1 = k then (kv.1, f kv.2) :: rest else kv :: upd k f rest

theorem alookup_upd_self [DecidableEq κ] (k : κ) (f : β → β) :
    ∀ l : List (κ × β), alookup k (upd k f l) = (alookup k l).map f := by
  intro l
  induction l with
  | nil => simp [alookup, upd]
  | cons kv rest ih =>
    by_cases h : kv.1 = k
    · simp [alookup, upd, h]
    · simp [alookup, upd, h, ih]

theorem alookup_upd_ne [DecidableEq κ] (k k' : κ) (f : β → β) (hne : k' ≠ k) :
    ∀ l : List (κ × β), alookup k' (upd k f l) = alookup k' l := by
  intro l
  induction l with
  | nil => simp [alookup, upd]
  | cons kv rest ih =>
    by_cases h : kv.1 = k
    · have h2 : ¬ kv.1 = k' := fun hh => hne (by rw [← hh, h])
      have h3 : ¬ k = k' := fun hh => hne hh.symm
      simp [alookup, upd, h, h2, h3]
    · by_cases h2 : kv.1 = k'
      · simp [alookup, upd, h, h2, hne]
      · simp [alookup, upd, h, h2, ih]

theorem upd_keys [DecidableEq κ] (k : κ) (f : β → β) :
    ∀ l : List (κ × β), (upd k f l).map Prod.fst = l.map Prod.fst := by
  intro l
  induction l with
  | nil => simp [upd]
  | cons kv rest ih =>
    by_cases h : kv.1 = k
    · simp [upd, h]
    · simp [upd, h, ih]

theorem alookup_eq_none_iff [DecidableEq κ] (k : κ) :
    ∀ l : List (κ × β), alookup k l = none ↔ k ∉ l.map Prod.fst := by
  intro l
  induction l with
  | nil => simp [alookup]
  | cons kv rest ih =>
    by_cases h : kv.1 = k
    · simp [alookup, h]
    · rw [alookup, if_neg h, List.map_cons, List.mem_cons, ih]
      constructor
      · intro hn hor
        rcases hor with hor | hor
        · exact h hor.symm
        · exact hn hor
      · intro hn hm
        exact hn (Or.inr hm)

theorem alookup_mem [DecidableEq κ] (k : κ) (v : β) :
    ∀ l : List (κ × β), alookup k l = some v → (k, v) ∈ l := by
  intro l
  induction l with
  | nil => intro h; simp [alookup] at h
  | cons kv rest ih =>
    intro h
    by_cases hk : kv.1 = k
    · rw [alookup, if_pos hk] at h
      injection h with h
      have : (k, v) = kv := by
        cases kv
        simp at hk h ⊢
        exact ⟨hk.symm, h.symm⟩
      rw [this]
      exact List.mem_cons_self _ _
    · rw [alookup, if_neg hk] at h
      exact List.mem_cons_of_mem _ (ih h)

theorem mem_of_nodup_keys [DecidableEq κ] (k : κ) (v₁ v₂ : β) :
    ∀ l : List (κ × β), (l.map Prod.fst).Nodup → (k, v₁) ∈ l → (k, v₂) ∈ l → v₁ = v₂ := by
  intro l
  induction l with
  | nil => intro _ h; simp at h
  | cons kv rest ih =>
    intro hnd h1 h2
    rw [List.map_cons, List.nodup_cons] at hnd
    rcases List.mem_cons.mp h1 with h1a | h1b
    · rcases List.mem_cons.mp h2 with h2a | h2b
      · rw [← h1a] at h2a
        exact (congrArg Prod.snd h2a).symm
      · exfalso
        have hk : kv.1 = k := by rw [← h1a]
        have hmem : k ∈ rest.map Prod.fst := List.mem_map_of_mem Prod.fst h2b
        exact hnd.1 (hk.symm ▸ hmem)
    · rcases List.mem_cons.mp h2 with h2a | h2b
      · exfalso
        have hk : kv.1 = k := by rw [← h2a]
        have hmem : k ∈ rest.map Prod.fst := List.mem_map_of_mem Prod.fst h1b
        exact hnd.1 (hk.symm ▸ hmem)
      · exact ih hnd.2 h1b h2b

/-! ### Data model of the decision engine scheduler (package `decision`) -/

abbrev Key := String
abbrev PeerID := String

/-- `wantlist.Entry`: a key together with its wantlist priority. -/
structure Entry where
  key : Key
  priority : Int
deriving DecidableEq, Repr

/-- `peerRequestTask` from the source: the `Done` closure is modelled by the
separate `Prq.taskDone` transition, and the `index` book-keeping field of the
heap is not needed in the list-based heap model. -/
structure PeerRequestTask where
  entry : Entry
  target : PeerID
  created : Nat
  trash : Bool
deriving DecidableEq, Repr

/-- `taskKey` returns a key that uniquely identifies a task (string
concatenation, exactly as in the source). -/
def taskKey (p : PeerID) (k : Key) : String := p ++ k

def PeerRequestTask.tkey (t : PeerRequestTask) : String := taskKey t.target t.entry.key

/-- `activePartner` from the source (the mutex is irrelevant in the
sequential model; `index` is heap book-keeping). -/
structure ActivePartner where
  active : Int
  activeBlocks : List Key
  requests : Int
  taskQueue : List Nat
deriving DecidableEq, Repr

/-- `newActivePartner()` -/
def newActivePartner : ActivePartner :=
  { active := 0, activeBlocks := [], requests := 0, taskQueue := [] }

/-- `partnerCompare` implements `pq.ElemComparator`: having no blocks in the
wantlist means lowest priority, otherwise fewer active blocks rank higher. -/
def partnerCompare (pa pb : ActivePartner) : Bool :=
  if pa.requests = 0 then false
  else if pb.requests = 0 then true
  else decide (pa.active < pb.active)

/-- `FIFO` task comparator: tasks in the order created. -/
def taskFIFO (a b : PeerRequestTask) : Bool := decide (a.created < b.created)

/-- `V1` task comparator: respects the target peer's wantlist priority;
for tasks involving different peers, the oldest task is prioritized. -/
def taskV1 (a b : PeerRequestTask) : Bool :=
  if a.target = b.target then decide (a.entry.priority > b.entry.priority)
  else taskFIFO a b

/-- State of the `prq` structure.  Task records live in `tasks` (ids playing
the role of the Go pointers shared between `taskMap` and the per-partner
queues); `clock` stands for `time.Now()`. -/
structure Prq where
  tasks : List (Nat × PeerRequestTask)
  nextId : Nat
  taskMap : List (String × Nat)
  partners : List (PeerID × ActivePartner)
  pQueue : List PeerID
  clock : Nat
deriving DecidableEq, Repr

/-- `newPRQ()` -/
def newPRQ : Prq :=
  { tasks := [], nextId := 0, taskMap := [], partners := [], pQueue := [], clock := 0 }

def getTask (tasks : List (Nat × PeerRequestTask)) (id : Nat) : PeerRequestTask :=
  (alookup id tasks).getD { entry := { key := "", priority := 0 }, target := "", created := 0, trash := false }

def getPartner (s : Prq) (p : PeerID) : ActivePartner :=
  (alookup p s.partners).getD newActivePartner

/-- The heap pop: select the element that the comparator ranks first
(first such element for ties); a binary heap pops a maximal element for
its comparator. -/
def pickBest (better : α → α → Bool) : List α → α → α
  | [], best => best
  | x :: rest, best => pickBest better rest (if better x best then x else best)

/-- `prq.Push`: ensure the partner exists, update the priority in place if a
task under the same `taskKey` exists, skip if the key is active, otherwise
create the task and account for it. -/
def Prq.push (s : Prq) (e : Entry) (toPeer : PeerID) : Prq :=
  let pr :=
    match alookup toPeer s.partners with
    | some pa => (pa, s)
    | none =>
        (newActivePartner,
         { s with partners := (toPeer, newActivePartner) :: s.partners,
                  pQueue := s.pQueue ++ [toPeer] })
  let partner := pr.1
  let s1 := pr.2
  match alookup (taskKey toPeer e.key) s1.taskMap with
  | some id =>
      { s1 with tasks := upd id (fun t => { t with entry := { t.entry with priority := e.priority } }) s1.tasks }
  | none =>
      if e.key ∈ partner.activeBlocks then s1
      else
        { s1 with
          tasks := (s1.nextId, { entry := e, target := toPeer, created := s1.clock, trash := false }) :: s1.tasks,
          nextId := s1.nextId + 1,
          taskMap := (taskKey toPeer e.key, s1.nextId) :: s1.taskMap,
          partners := upd toPeer (fun pa =>
            { pa with taskQueue := pa.taskQueue ++ [s1.nextId], requests := pa.requests + 1 }) s1.partners,
          clock := s1.clock + 1 }

/-- The partner the outer queue would pop, per `partnerCompare`. -/
def Prq.popChosen (s : Prq) : Option PeerID :=
  match s.pQueue with
  | [] => none
  | q0 :: rest => some (pickBest (fun a b => partnerCompare (getPartner s a) (getPartner s b)) rest q0)

/-- The drain loop inside `prq.Pop`: pop tasks off the partner's inner queue
(best under `V1`), deleting each from the task map, discarding trashed tasks,
until a live task is found.  Returns the yielded task id, the remaining
queue, and the ids popped (hence removed from the task map), in order. -/
def drain (tk : List (Nat × PeerRequestTask)) : Nat → List Nat → Option Nat × List Nat × List Nat
  | 0, q => (none, q, [])
  | Nat.succ n, q =>
      match q with
      | [] => (none, [], [])
      | t0 :: rest =>
          let id := pickBest (fun a b => taskV1 (getTask tk a) (getTask tk b)) rest t0
          let q2 := (t0 :: rest).erase id
          if (getTask tk id).trash then
            let r := drain tk n q2
            (r.1, r.2.1, id :: r.2.2)
          else (some id, q2, [id])

/-- The drain of the chosen partner's queue. -/
def popDrain (s : Prq) (p : PeerID) : Option Nat × List Nat × List Nat :=
  drain s.tasks (getPartner s p).taskQueue.length (getPartner s p).taskQueue

/-- The task map after the `delete(tl.taskMap, out.Key())` calls of `Pop`. -/
def popNewMap (s : Prq) (p : PeerID) : List (String × Nat) :=
  (popDrain s p).2.2.foldl (fun m id => m.filter (fun kv => kv.1 != (getTask s.tasks id).tkey)) s.taskMap

/-- The chosen partner after the drain: queue shrunk and, when a live task
was yielded, `StartTask` (insert the key into the active set, bump `active`)
plus the `requests` decrement. -/
def popPartner (s : Prq) (p : PeerID) : ActivePartner :=
  match (popDrain s p).1 with
  | none => { getPartner s p with taskQueue := (popDrain s p).2.1 }
  | some id =>
      { getPartner s p with
        taskQueue := (popDrain s p).2.1,
        activeBlocks := if (getTask s.tasks id).entry.key ∈ (getPartner s p).activeBlocks
                        then (getPartner s p).activeBlocks
                        else (getTask s.tasks id).entry.key :: (getPartner s p).activeBlocks,
        active := (getPartner s p).active + 1,
        requests := (getPartner s p).requests - 1 }

/-- `prq.Pop`: pop the best partner, drain its queue to the first live task,
start that task (`StartTask` plus the `requests` decrement), and push the
partner back. -/
def Prq.pop (s : Prq) : Option PeerRequestTask × Prq :=
  match s.popChosen with
  | none => (none, s)
  | some p =>
      ((popDrain s p).1.map (getTask s.tasks),
       { s with taskMap := popNewMap s p,
                partners := upd p (fun _ => popPartner s p) s.partners,
                pQueue := (s.pQueue.erase p) ++ [p] })

/-- `prq.Remove`: mark the task as trash (lazy removal) and account for the
cancellation on the given partner.  Returns `none` for the nil-map-entry
panic (`tl.partners[p]` missing while the task map has the key). -/
def Prq.remove (s : Prq) (k : Key) (p : PeerID) : Option Prq :=
  match alookup (taskKey p k) s.taskMap with
  | none => some s
  | some id =>
      match alookup p s.partners with
      | none => none
      | some _ =>
          some { s with
            tasks := upd id (fun t => { t with trash := true }) s.tasks,
            partners := upd p (fun pa => { pa with requests := pa.requests - 1 }) s.partners }

/-- `activePartner.TaskDone`, reached through a task's `Done` closure:
delete the key from the active set and decrement `active`; a negative
`active` is the `more tasks finished than started` panic, modelled as
`none`. -/
def Prq.taskDone (s : Prq) (p : PeerID) (k : Key) : Option Prq :=
  let pa := getPartner s p
  let pa' := { pa with activeBlocks := pa.activeBlocks.erase k, active := pa.active - 1 }
  if pa'.active < 0 then none
  else some { s with partners := upd p (fun _ => pa') s.partners }

/-- One mutating operation of the scheduler (a `Step s s'` holds when the
operation runs without panicking and turns state `s` into `s'`). -/
inductive Step : Prq → Prq → Prop where
  | push : ∀ s e toPeer, Step s (Prq.push s e toPeer)
  | pop : ∀ s, Step s (Prq.pop s).2
  | remove : ∀ s k p s', Prq.remove s k p = some s' → Step s s'
  | done : ∀ s p k s', Prq.taskDone s p k = some s' → Step s s'

/-- States reachable from `newPRQ` by `Push`/`Pop`/`Remove`/`Done`. -/
def Reachable (s : Prq) : Prop := Relation.ReflTransGen Step newPRQ s

/-- Steps in which every `TaskDone` matches a preceding `StartTask` that has
not been completed yet (the key is still in the partner's active set): the
formalisation of calling `TaskDone` at most once per preceding `StartTask`. -/
inductive GStep : Prq → Prq → Prop where
  | push : ∀ s e toPeer, GStep s (Prq.push s e toPeer)
  | pop : ∀ s, GStep s (Prq.pop s).2
  | remove : ∀ s k p s', Prq.remove s k p = some s' → GStep s s'
  | done : ∀ s p k s', k ∈ (getPartner s p).activeBlocks → Prq.taskDone s p k = some s' → GStep s s'

def GReachable (s : Prq) : Prop := Relation.ReflTransGen GStep newPRQ s

/-! ### Properties of the comparators and of heap selection -/

theorem partnerCompare_irrefl (a : ActivePartner) : partnerCompare a a = false := by
  unfold partnerCompare
  split_ifs <;> simp <;> omega

theorem partnerCompare_trans (a b c : ActivePartner) :
    partnerCompare a b = true → partnerCompare b c = true → partnerCompare a c = true := by
  unfold partnerCompare
  split_ifs <;> simp_all <;> omega

theorem partnerCompare_negTrans (a b c : ActivePartner) :
    partnerCompare a b = false → partnerCompare b c = false → partnerCompare a c = false := by
  unfold partnerCompare
  split_ifs <;> simp_all <;> omega

theorem pickBest_mem (f : α → α → Bool) :
    ∀ (l : List α) (b : α), pickBest f l b ∈ b :: l := by
  intro l
  induction l with
  | nil => intro b; simp [pickBest]
  | cons x rest ih =>
    intro b
    rw [pickBest]
    by_cases h : f x b = true
    · rw [if_pos h]
      have := ih x
      rcases List.mem_cons.mp this with h1 | h1
      · rw [h1]; simp
      · simp [h1]
    · rw [if_neg h]
      have := ih b
      rcases List.mem_cons.mp this with h1 | h1
      · rw [h1]; simp
      · simp [h1]

/-- A binary heap pops an element that is maximal for its comparator; the
fold that models it satisfies the same property whenever the comparator is
a strict weak order (which `partnerCompare` is, see below). -/
theorem pickBest_max (f : α → α → Bool)
    (hIrr : ∀ a, f a a = false)
    (hTrans : ∀ a b c, f a b = true → f b c = true → f a c = true)
    (hNeg : ∀ a b c, f a b = false → f b c = false → f a c = false) :
    ∀ (l : List α) (b x : α), x ∈ b :: l → f x (pickBest f l b) = false := by
  intro l
  induction l with
  | nil =>
    intro b x hx
    rcases List.mem_cons.mp hx with h | h
    · rw [h, pickBest]; exact hIrr b
    · simp at h
  | cons y rest ih =>
    intro b x hx
    rw [pickBest]
    by_cases hy : f y b = true
    · rw [if_pos hy]
      rcases List.mem_cons.mp hx with h | h
      · -- x = b: if b beat the result m, then y would beat m via b, contradiction
        rw [h]
        cases hbm : f b (pickBest f rest y) with
        | false => rfl
        | true =>
          have hym : f y (pickBest f rest y) = false := ih y y (List.mem_cons_self _ _)
          have hyt : f y (pickBest f rest y) = true := hTrans y b _ hy hbm
          rw [hyt] at hym
          exact absurd hym (by simp)
      · exact ih y x (by simpa using h)
    · rw [if_neg hy]
      rcases List.mem_cons.mp hx with h | h
      · rw [h]
        exact ih b b (List.mem_cons_self _ _)
      · rcases List.mem_cons.mp h with h1 | h1
        · subst h1
          have hbm : f b (pickBest f rest b) = false := ih b b (List.mem_cons_self _ _)
          exact hNeg x b _ (by simpa using hy) hbm
        · exact ih b x (List.mem_cons_of_mem _ h1)

/-! ### Properties of the `Pop` drain loop -/

theorem drain_sublist (tk : List (Nat × PeerRequestTask)) :
    ∀ (n : Nat) (q : List Nat), List.Sublist (drain tk n q).2.1 q := by
  intro n
  induction n with
  | zero => intro q; simp [drain]
  | succ n ih =>
    intro q
    cases q with
    | nil => simp [drain]
    | cons t0 rest =>
      rw [drain]
      by_cases h : (getTask tk (pickBest (fun a b => taskV1 (getTask tk a) (getTask tk b)) rest t0)).trash
      · simp only [h, if_true]
        exact (ih _).trans (List.erase_sublist _ _)
      · simp only [h, if_false]
        exact List.erase_sublist _ _

theorem drain_del_mem (tk : List (Nat × PeerRequestTask)) :
    ∀ (n : Nat) (q : List Nat), ∀ x ∈ (drain tk n q).2.2, x ∈ q := by
  intro n
  induction n with
  | zero => intro q x hx; simp [drain] at hx
  | succ n ih =>
    intro q x hx
    cases q with
    | nil => simp [drain] at hx
    | cons t0 rest =>
      rw [drain] at hx
      by_cases h : (getTask tk (pickBest (fun a b => taskV1 (getTask tk a) (getTask tk b)) rest t0)).trash
      · simp only [h, if_true] at hx
        rcases List.mem_cons.mp hx with h1 | h1
        · rw [h1]; exact pickBest_mem _ _ _
        · exact (List.erase_sublist _ _).subset (ih _ x h1)
      · simp only [h, if_false] at hx
        rcases List.mem_cons.mp hx with h1 | h1
        · rw [h1]; exact pickBest_mem _ _ _
        · simp at h1

theorem drain_del_not_rem (tk : List (Nat × PeerRequestTask)) :
    ∀ (n : Nat) (q : List Nat), q.Nodup →
      ∀ x ∈ (drain tk n q).2.2, x ∉ (drain tk n q).2.1 := by
  intro n
  induction n with
  | zero => intro q _ x hx; simp [drain] at hx
  | succ n ih =>
    intro q hnd x hx
    cases q with
    | nil => simp [drain] at hx
    | cons t0 rest =>
      rw [drain] at hx ⊢
      by_cases h : (getTask tk (pickBest (fun a b => taskV1 (getTask tk a) (getTask tk b)) rest t0)).trash
      · simp only [h, if_true] at hx ⊢
        rcases List.mem_cons.mp hx with h1 | h1
        · intro hmem
          have h2 := (drain_sublist tk n _).subset hmem
          rw [h1] at h2
          exact hnd.not_mem_erase h2
        · exact ih _ (hnd.erase _) x h1
      · simp only [h, if_false] at hx ⊢
        rcases List.mem_cons.mp hx with h1 | h1
        · rw [h1]
          exact hnd.not_mem_erase
        · simp at h1

theorem drain_some (tk : List (Nat × PeerRequestTask)) :
    ∀ (n : Nat) (q : List Nat) (id : Nat), (drain tk n q).1 = some id →
      id ∈ q ∧ (getTask tk id).trash = false ∧ id ∈ (drain tk n q).2.2 := by
  intro n
  induction n with
  | zero => intro q id h; simp [drain] at h
  | succ n ih =>
    intro q id h
    cases q with
    | nil => simp [drain] at h
    | cons t0 rest =>
      rw [drain] at h ⊢
      by_cases ht : (getTask tk (pickBest (fun a b => taskV1 (getTask tk a) (getTask tk b)) rest t0)).trash
      · simp only [ht, if_true] at h ⊢
        rcases ih _ id h with ⟨h1, h2, h3⟩
        refine ⟨(List.erase_sublist _ _).subset h1, h2, List.mem_cons_of_mem _ h3⟩
      · simp only [ht, if_false] at h ⊢
        injection h with h
        subst h
        exact ⟨pickBest_mem _ _ _, by simpa using ht, List.mem_cons_self _ _⟩

theorem drain_none_of_all_trash (tk : List (Nat × PeerRequestTask)) :
    ∀ (n : Nat) (q : List Nat), (∀ x ∈ q, (getTask tk x).trash = true) →
      (drain tk n q).1 = none := by
  intro n
  induction n with
  | zero => intro q _; simp [drain]
  | succ n ih =>
    intro q hall
    cases q with
    | nil => simp [drain]
    | cons t0 rest =>
      rw [drain]
      have hmem := pickBest_mem (fun a b => taskV1 (getTask tk a) (getTask tk b)) rest t0
      have ht := hall _ hmem
      simp only [ht, if_true]
      exact ih _ (fun x hx => hall x ((List.erase_sublist _ _).subset hx))

/-! ### Task-map deletion helpers (the `delete(tl.taskMap, out.Key())` calls) -/

theorem foldl_filter_sublist (g : Nat → String) :
    ∀ (del : List Nat) (m : List (String × Nat)),
      List.Sublist (del.foldl (fun m id => m.filter (fun kv => kv.1 != g id)) m) m := by
  intro del
  induction del with
  | nil => intro m; simp
  | cons d rest ih =>
    intro m
    exact (ih _).trans (List.filter_sublist m)

theorem mem_foldl_filter (g : Nat → String) :
    ∀ (del : List Nat) (m : List (String × Nat)) (x : String × Nat),
      x ∈ m → (∀ d ∈ del, x.1 ≠ g d) →
      x ∈ del.foldl (fun m id => m.filter (fun kv => kv.1 != g id)) m := by
  intro del
  induction del with
  | nil => intro m x hx _; simpa using hx
  | cons d rest ih =>
    intro m x hx hne
    simp only [List.foldl_cons]
    refine ih _ x ?_ (fun d hd => hne d (List.mem_cons_of_mem _ hd))
    rw [List.mem_filter]
    exact ⟨hx, by simpa using hne d (List.mem_cons_self _ _)⟩

/-! ### The well-formedness invariant of reachable scheduler states -/

theorem isSome_alookup_upd [DecidableEq κ] (k k' : κ) (f : β → β) (l : List (κ × β)) :
    (alookup k' (upd k f l)).isSome = (alookup k' l).isSome := by
  by_cases h : k' = k
  · subst h
    rw [alookup_upd_self]
    cases alookup k' l <;> rfl
  · rw [alookup_upd_ne _ _ _ h]

theorem alookup_cons [DecidableEq κ] (k k' : κ) (v : β) (l : List (κ × β)) :
    alookup k ((k', v) :: l) = if k' = k then some v else alookup k l := rfl

theorem getTask_cons (nid : Nat) (tnew : PeerRequestTask) (tasks : List (Nat × PeerRequestTask)) (id : Nat) :
    getTask ((nid, tnew) :: tasks) id = if nid = id then tnew else getTask tasks id := by
  unfold getTask
  rw [alookup_cons]
  by_cases h : nid = id <;> simp [h]

/-- Well-formedness of a scheduler state: the task map has no duplicate
keys, every queued task id resolves to a task owned by its queue's partner
and registered in the task map under its `taskKey`, ids are bounded by the
id counter, a queued task's key is never in its partner's active set, and
the various list-modelled sets have no duplicates. -/
structure WF (s : Prq) : Prop where
  mapNodup : (s.taskMap.map Prod.fst).Nodup
  partnersNodup : (s.partners.map Prod.fst).Nodup
  pQNodup : s.pQueue.Nodup
  pQPartner : ∀ p ∈ s.pQueue, (alookup p s.partners).isSome
  queueTask : ∀ p pa, alookup p s.partners = some pa → ∀ id ∈ pa.taskQueue,
      ∃ t, alookup id s.tasks = some t ∧ t.target = p ∧ (t.tkey, id) ∈ s.taskMap
  queueNodup : ∀ p pa, alookup p s.partners = some pa → pa.taskQueue.Nodup
  idBound : ∀ p pa, alookup p s.partners = some pa → ∀ id ∈ pa.taskQueue, id < s.nextId
  notActive : ∀ p pa, alookup p s.partners = some pa → ∀ id ∈ pa.taskQueue,
      (getTask s.tasks id).entry.key ∉ pa.activeBlocks
  activeNodup : ∀ p pa, alookup p s.partners = some pa → pa.activeBlocks.Nodup

theorem wf_newPRQ : WF newPRQ := by
  refine ⟨?_, ?_, ?_, ?_, ?_, ?_, ?_, ?_, ?_⟩ <;> simp [newPRQ, alookup]

/-- Priority update in place (the task-map hit branch of `Push`). -/
theorem wf_update_priority (s : Prq) (id : Nat) (pr : Int) (wf : WF s) :
    WF { s with tasks := upd id (fun t => { t with entry := { t.entry with priority := pr } }) s.tasks } := by
  refine ⟨wf.mapNodup, wf.partnersNodup, wf.pQNodup, wf.pQPartner, ?_, wf.queueNodup, wf.idBound, ?_, wf.activeNodup⟩
  · intro p pa hpa id' hid'
    obtain ⟨t, ht, htg, hmem⟩ := wf.queueTask p pa hpa id' hid'
    by_cases h : id' = id
    · subst h
      refine ⟨{ t with entry := { t.entry with priority := pr } }, ?_, htg, ?_⟩
      · rw [alookup_upd_self, ht]
        rfl
      · have : ({ t with entry := { t.entry with priority := pr } } : PeerRequestTask).tkey = t.tkey := rfl
        rw [this]
        exact hmem
    · exact ⟨t, by rw [alookup_upd_ne _ _ _ h, ht], htg, hmem⟩
  · intro p pa hpa id' hid'
    have hold := wf.notActive p pa hpa id' hid'
    by_cases h : id' = id
    · subst h
      unfold getTask at hold ⊢
      rw [alookup_upd_self]
      cases halt : alookup id' s.tasks with
      | none => rw [halt] at hold; simpa using hold
      | some t => rw [halt] at hold; simpa using hold
    · unfold getTask at hold ⊢
      rw [alookup_upd_ne _ _ _ h]
      exact hold

/-- Lazy partner creation (the first half of `Push`). -/
theorem wf_new_partner (s : Prq) (toPeer : PeerID) (wf : WF s)
    (h : alookup toPeer s.partners = none) :
    WF { s with partners := (toPeer, newActivePartner) :: s.partners,
                pQueue := s.pQueue ++ [toPeer] } := by
  have hnotin : toPeer ∉ s.partners.map Prod.fst := (alookup_eq_none_iff _ _).mp h
  have hnotq : toPeer ∉ s.pQueue := by
    intro hq
    have := wf.pQPartner toPeer hq
    rw [h] at this
    simp at this
  refine ⟨wf.mapNodup, ?_, ?_, ?_, ?_, ?_, ?_, ?_, ?_⟩
  · rw [List.map_cons, List.nodup_cons]
    exact ⟨hnotin, wf.partnersNodup⟩
  · rw [List.nodup_append]
    refine ⟨wf.pQNodup, List.nodup_singleton _, ?_⟩
    intro x hx hx2
    simp at hx2
    subst hx2
    exact hnotq hx
  · intro p hp
    rw [alookup_cons]
    by_cases hpt : toPeer = p
    · simp [hpt]
    · rw [if_neg hpt]
      rcases List.mem_append.mp hp with h1 | h1
      · exact wf.pQPartner p h1
      · simp at h1
        exact absurd h1.symm hpt
  · intro p pa hpa
    rw [alookup_cons] at hpa
    by_cases hpt : toPeer = p
    · rw [if_pos hpt] at hpa
      injection hpa with hpa
      subst hpa
      intro id hid
      simp [newActivePartner] at hid
    · rw [if_neg hpt] at hpa
      exact wf.queueTask p pa hpa
  · intro p pa hpa
    rw [alookup_cons] at hpa
    by_cases hpt : toPeer = p
    · rw [if_pos hpt] at hpa
      injection hpa with hpa
      subst hpa
      simp [newActivePartner]
    · rw [if_neg hpt] at hpa
      exact wf.queueNodup p pa hpa
  · intro p pa hpa
    rw [alookup_cons] at hpa
    by_cases hpt : toPeer = p
    · rw [if_pos hpt] at hpa
      injection hpa with hpa
      subst hpa
      intro id hid
      simp [newActivePartner] at hid
    · rw [if_neg hpt] at hpa
      exact wf.idBound p pa hpa
  · intro p pa hpa
    rw [alookup_cons] at hpa
    by_cases hpt : toPeer = p
    · rw [if_pos hpt] at hpa
      injection hpa with hpa
      subst hpa
      intro id hid
      simp [newActivePartner] at hid
    · rw [if_neg hpt] at hpa
      exact wf.notActive p pa hpa
  · intro p pa hpa
    rw [alookup_cons] at hpa
    by_cases hpt : toPeer = p
    · rw [if_pos hpt] at hpa
      injection hpa with hpa
      subst hpa
      simp [newActivePartner]
    · rw [if_neg hpt] at hpa
      exact wf.activeNodup p pa hpa

/-- Task creation (the final branch of `Push`). -/
theorem wf_create (s : Prq) (e : Entry) (toPeer : PeerID) (pa0 : ActivePartner)
    (wf : WF s) (hpa : alookup toPeer s.partners = some pa0)
    (hmap : alookup (taskKey toPeer e.key) s.taskMap = none)
    (hact : e.key ∉ pa0.activeBlocks) :
    WF { s with
      tasks := (s.nextId, { entry := e, target := toPeer, created := s.clock, trash := false }) :: s.tasks,
      nextId := s.nextId + 1,
      taskMap := (taskKey toPeer e.key, s.nextId) :: s.taskMap,
      partners := upd toPeer (fun pa => { pa with taskQueue := pa.taskQueue ++ [s.nextId], requests := pa.requests + 1 }) s.partners,
      clock := s.clock + 1 } := by
  have hkeyfresh : taskKey toPeer e.key ∉ s.taskMap.map Prod.fst := (alookup_eq_none_iff _ _).mp hmap
  have hlk : ∀ p : PeerID,
      alookup p (upd toPeer (fun pa => { pa with taskQueue := pa.taskQueue ++ [s.nextId], requests := pa.requests + 1 }) s.partners)
      = if p = toPeer then some { pa0 with taskQueue := pa0.taskQueue ++ [s.nextId], requests := pa0.requests + 1 }
        else alookup p s.partners := by
    intro p
    by_cases h : p = toPeer
    · subst h
      rw [if_pos rfl, alookup_upd_self, hpa]
      rfl
    · rw [if_neg h, alookup_upd_ne _ _ _ h]
  refine ⟨?_, ?_, wf.pQNodup, ?_, ?_, ?_, ?_, ?_, ?_⟩
  · rw [List.map_cons, List.nodup_cons]
    exact ⟨hkeyfresh, wf.mapNodup⟩
  · simpa [upd_keys] using wf.partnersNodup
  · intro p hp
    rw [isSome_alookup_upd]
    exact wf.pQPartner p hp
  · -- queueTask
    intro p pa hpa' id hid
    rw [hlk] at hpa'
    by_cases hpt : p = toPeer
    · rw [if_pos hpt] at hpa'
      injection hpa' with hpa'
      subst hpa'
      have hid2 : id ∈ pa0.taskQueue ++ [s.nextId] := hid
      rcases List.mem_append.mp hid2 with hold | hnew
      · obtain ⟨t, ht, htg, hmem⟩ := wf.queueTask toPeer pa0 hpa id hold
        have hne : s.nextId ≠ id := by
          intro hh
          exact absurd (hh ▸ wf.idBound toPeer pa0 hpa id hold) (lt_irrefl _)
        exact ⟨t, by rw [alookup_cons, if_neg hne]; exact ht, hpt.symm ▸ htg, List.mem_cons_of_mem _ hmem⟩
      · simp at hnew
        subst hnew
        refine ⟨{ entry := e, target := toPeer, created := s.clock, trash := false }, ?_, hpt.symm, ?_⟩
        · rw [alookup_cons, if_pos rfl]
        · have heq : ({ entry := e, target := toPeer, created := s.clock, trash := false } : PeerRequestTask).tkey = taskKey toPeer e.key := rfl
          rw [heq]
          exact List.mem_cons_self _ _
    · rw [if_neg hpt] at hpa'
      obtain ⟨t, ht, htg, hmem⟩ := wf.queueTask p pa hpa' id hid
      have hne : s.nextId ≠ id := by
        intro hh
        exact absurd (hh ▸ wf.idBound p pa hpa' id hid) (lt_irrefl _)
      exact ⟨t, by rw [alookup_cons, if_neg hne]; exact ht, htg, List.mem_cons_of_mem _ hmem⟩
  · -- queueNodup
    intro p pa hpa'
    rw [hlk] at hpa'
    by_cases hpt : p = toPeer
    · rw [if_pos hpt] at hpa'
      injection hpa' with hpa'
      subst hpa'
      show (pa0.taskQueue ++ [s.nextId]).Nodup
      rw [List.nodup_append]
      refine ⟨wf.queueNodup toPeer pa0 hpa, List.nodup_singleton _, ?_⟩
      intro x hx hx2
      simp at hx2
      subst hx2
      exact absurd (wf.idBound toPeer pa0 hpa _ hx) (lt_irrefl _)
    · rw [if_neg hpt] at hpa'
      exact wf.queueNodup p pa hpa'
  · -- idBound
    intro p pa hpa' id hid
    rw [hlk] at hpa'
    by_cases hpt : p = toPeer
    · rw [if_pos hpt] at hpa'
      injection hpa' with hpa'
      subst hpa'
      have hid2 : id ∈ pa0.taskQueue ++ [s.nextId] := hid
      rcases List.mem_append.mp hid2 with hold | hnew
      · exact Nat.lt_succ_of_lt (wf.idBound toPeer pa0 hpa id hold)
      · simp at hnew
        subst hnew
        exact Nat.lt_succ_self _
    · rw [if_neg hpt] at hpa'
      exact Nat.lt_succ_of_lt (wf.idBound p pa hpa' id hid)
  · -- notActive
    intro p pa hpa' id hid
    rw [hlk] at hpa'
    by_cases hpt : p = toPeer
    · rw [if_pos hpt] at hpa'
      injection hpa' with hpa'
      subst hpa'
      have hid2 : id ∈ pa0.taskQueue ++ [s.nextId] := hid
      show (getTask ((s.nextId, { entry := e, target := toPeer, created := s.clock, trash := false }) :: s.tasks) id).entry.key ∉ pa0.activeBlocks
      rcases List.mem_append.mp hid2 with hold | hnew
      · have hne : s.nextId ≠ id := by
          intro hh
          exact absurd (hh ▸ wf.idBound toPeer pa0 hpa id hold) (lt_irrefl _)
        rw [getTask_cons, if_neg hne]
        exact wf.notActive toPeer pa0 hpa id hold
      · simp at hnew
        subst hnew
        rw [getTask_cons, if_pos rfl]
        exact hact
    · rw [if_neg hpt] at hpa'
      intro hmem
      have hne : s.nextId ≠ id := by
        intro hh
        exact absurd (hh ▸ wf.idBound p pa hpa' id hid) (lt_irrefl _)
      rw [getTask_cons, if_neg hne] at hmem
      exact wf.notActive p pa hpa' id hid hmem
  · -- activeNodup
    intro p pa hpa'
    rw [hlk] at hpa'
    by_cases hpt : p = toPeer
    · rw [if_pos hpt] at hpa'
      injection hpa' with hpa'
      subst hpa'
      show pa0.activeBlocks.Nodup
      exact wf.activeNodup toPeer pa0 hpa
    · rw [if_neg hpt] at hpa'
      exact wf.activeNodup p pa hpa'

/-- `Push` preserves well-formedness. -/
theorem wf_push (s : Prq) (e : Entry) (toPeer : PeerID) (wf : WF s) :
    WF (s.push e toPeer) := by
  unfold Prq.push
  cases hpart : alookup toPeer s.partners with
  | some pa0 =>
    simp only [hpart]
    cases hmap : alookup (taskKey toPeer e.key) s.taskMap with
    | some id =>
      simp only [hmap]
      exact wf_update_priority s id e.priority wf
    | none =>
      simp only [hmap]
      by_cases hact : e.key ∈ pa0.activeBlocks
      · simp only [if_pos hact]
        exact wf
      · simp only [if_neg hact]
        exact wf_create s e toPeer pa0 wf hpart hmap hact
  | none =>
    simp only [hpart]
    have wf1 := wf_new_partner s toPeer wf hpart
    cases hmap : alookup (taskKey toPeer e.key) s.taskMap with
    | some id =>
      simp only [hmap]
      exact wf_update_priority _ id e.priority wf1
    | none =>
      simp only [hmap]
      have hact : e.key ∉ newActivePartner.activeBlocks := by simp [newActivePartner]
      simp only [newActivePartner] at hact ⊢
      exact wf_create _ e toPeer newActivePartner wf1 (by rw [alookup_cons, if_pos rfl]) hmap (by simp [newActivePartner])

/-! ### `Pop`, `Remove` and `TaskDone` preserve well-formedness -/

theorem popChosen_mem (s : Prq) (p : PeerID) (h : s.popChosen = some p) : p ∈ s.pQueue := by
  unfold Prq.popChosen at h
  cases hq : s.pQueue with
  | nil => rw [hq] at h; simp at h
  | cons q0 rest =>
    rw [hq] at h
    simp only [Option.some.injEq] at h
    rw [← h]
    exact pickBest_mem _ _ _

theorem wf_pop (s : Prq) (wf : WF s) : WF (Prq.pop s).2 := by
  unfold Prq.pop
  cases hch : s.popChosen with
  | none => exact wf
  | some p =>
    have hpq : p ∈ s.pQueue := popChosen_mem s p hch
    have hsome := wf.pQPartner p hpq
    obtain ⟨pa0, hpS⟩ : ∃ pa0, alookup p s.partners = some pa0 := by
      cases hx : alookup p s.partners with
      | none => rw [hx] at hsome; simp at hsome
      | some y => exact ⟨y, rfl⟩
    have hgp : getPartner s p = pa0 := by unfold getPartner; rw [hpS]; rfl
    have hqnd : pa0.taskQueue.Nodup := wf.queueNodup p pa0 hpS
    have hpd : popDrain s p = drain s.tasks pa0.taskQueue.length pa0.taskQueue := by
      unfold popDrain; rw [hgp]
    have hsub : List.Sublist (popDrain s p).2.1 pa0.taskQueue := by
      unfold popDrain; rw [hgp]; exact drain_sublist _ _ _
    have hdelmem : ∀ x ∈ (popDrain s p).2.2, x ∈ pa0.taskQueue := by
      unfold popDrain; rw [hgp]; exact drain_del_mem _ _ _
    have hdisj : ∀ x ∈ (popDrain s p).2.2, x ∉ (popDrain s p).2.1 := by
      unfold popDrain; rw [hgp]; exact drain_del_not_rem _ _ _ hqnd
    have hppq : (popPartner s p).taskQueue = (popDrain s p).2.1 := by
      unfold popPartner; cases (popDrain s p).1 <;> rfl
    have hlk : ∀ q : PeerID, alookup q (upd p (fun _ => popPartner s p) s.partners)
        = if q = p then some (popPartner s p) else alookup q s.partners := by
      intro q
      by_cases h : q = p
      · subst h
        rw [if_pos rfl, alookup_upd_self, hpS]
        rfl
      · rw [if_neg h, alookup_upd_ne _ _ _ h]
    -- a task id of partner p₁ whose task survives the drain keeps its map entry
    have hsurvive : ∀ (p₁ : PeerID) (pa₁ : ActivePartner), alookup p₁ s.partners = some pa₁ →
        ∀ id ∈ pa₁.taskQueue, (p₁ ≠ p ∨ id ∈ (popDrain s p).2.1) →
        ∀ t, alookup id s.tasks = some t → (t.tkey, id) ∈ popNewMap s p := by
      intro p₁ pa₁ hp₁ id hidq hside t ht
      obtain ⟨t', ht', htg', hmem'⟩ := wf.queueTask p₁ pa₁ hp₁ id hidq
      have htt' : t = t' := Option.some.inj (ht.symm.trans ht')
      subst htt'
      unfold popNewMap
      apply mem_foldl_filter
      · exact hmem'
      · intro d hd
        have hdq : d ∈ pa0.taskQueue := hdelmem d hd
        obtain ⟨td, htd, htgd, hmemd⟩ := wf.queueTask p pa0 hpS d hdq
        have hgd : getTask s.tasks d = td := by unfold getTask; rw [htd]; rfl
        rw [hgd]
        intro heq
        have heq' : t.tkey = td.tkey := heq
        have hide : id = d :=
          mem_of_nodup_keys td.tkey id d s.taskMap wf.mapNodup (heq' ▸ hmem') hmemd
        subst hide
        rcases hside with hside | hside
        · have htt : t = td := Option.some.inj (ht.symm.trans htd)
          exact hside (by rw [← htg', htt]; exact htgd)
        · exact hdisj id hd hside
    refine ⟨?_, ?_, ?_, ?_, ?_, ?_, ?_, ?_, ?_⟩
    · -- mapNodup
      have h1 : List.Sublist (popNewMap s p) s.taskMap := foldl_filter_sublist _ _ _
      exact List.Nodup.sublist (h1.map Prod.fst) wf.mapNodup
    · simpa [upd_keys] using wf.partnersNodup
    · -- pQNodup
      have hpne : p ∉ s.pQueue.erase p := wf.pQNodup.not_mem_erase
      rw [List.nodup_append]
      refine ⟨wf.pQNodup.erase p, List.nodup_singleton _, ?_⟩
      intro x hx hx2
      simp at hx2
      subst hx2
      exact hpne hx
    · -- pQPartner
      intro q hq
      rw [isSome_alookup_upd]
      rcases List.mem_append.mp hq with h1 | h1
      · exact wf.pQPartner q ((List.erase_sublist _ _).subset h1)
      · simp at h1
        subst h1
        exact hsome
    · -- queueTask
      intro q pa hpa' id hid
      rw [hlk] at hpa'
      by_cases hqp : q = p
      · rw [if_pos hqp] at hpa'
        injection hpa' with hpa'
        subst hpa'
        rw [hppq] at hid
        have hidq : id ∈ pa0.taskQueue := hsub.subset hid
        obtain ⟨t, ht, htg, hmem⟩ := wf.queueTask p pa0 hpS id hidq
        exact ⟨t, ht, by rw [hqp]; exact htg,
          hsurvive p pa0 hpS id hidq (Or.inr hid) t ht⟩
      · rw [if_neg hqp] at hpa'
        obtain ⟨t, ht, htg, hmem⟩ := wf.queueTask q pa hpa' id hid
        exact ⟨t, ht, htg, hsurvive q pa hpa' id hid (Or.inl hqp) t ht⟩
    · -- queueNodup
      intro q pa hpa'
      rw [hlk] at hpa'
      by_cases hqp : q = p
      · rw [if_pos hqp] at hpa'
        injection hpa' with hpa'
        subst hpa'
        rw [hppq]
        exact List.Nodup.sublist hsub hqnd
      · rw [if_neg hqp] at hpa'
        exact wf.queueNodup q pa hpa'
    · -- idBound
      intro q pa hpa' id hid
      rw [hlk] at hpa'
      by_cases hqp : q = p
      · rw [if_pos hqp] at hpa'
        injection hpa' with hpa'
        subst hpa'
        rw [hppq] at hid
        exact wf.idBound p pa0 hpS id (hsub.subset hid)
      · rw [if_neg hqp] at hpa'
        exact wf.idBound q pa hpa' id hid
    · -- notActive
      intro q pa hpa' id hid
      rw [hlk] at hpa'
      by_cases hqp : q = p
      · rw [if_pos hqp] at hpa'
        injection hpa' with hpa'
        subst hpa'
        rw [hppq] at hid
        have hidq : id ∈ pa0.taskQueue := hsub.subset hid
        have hold := wf.notActive p pa0 hpS id hidq
        cases hres : (popDrain s p).1 with
        | none =>
          unfold popPartner
          rw [hres]
          simp only []
          rw [hgp]
          exact hold
        | some idStar =>
          have hst := drain_some s.tasks (getPartner s p).taskQueue.length (getPartner s p).taskQueue idStar hres
          rw [hgp] at hst
          obtain ⟨hstq, hstlive, hstdel⟩ := hst
          have hkstar : (getTask s.tasks idStar).entry.key ∉ pa0.activeBlocks :=
            wf.notActive p pa0 hpS idStar hstq
          have hkne : (getTask s.tasks id).entry.key ≠ (getTask s.tasks idStar).entry.key := by
            intro hkeq
            obtain ⟨t₁, ht₁, htg₁, hm₁⟩ := wf.queueTask p pa0 hpS id hidq
            obtain ⟨t₂, ht₂, htg₂, hm₂⟩ := wf.queueTask p pa0 hpS idStar hstq
            have hg₁ : getTask s.tasks id = t₁ := by unfold getTask; rw [ht₁]; rfl
            have hg₂ : getTask s.tasks idStar = t₂ := by unfold getTask; rw [ht₂]; rfl
            rw [hg₁, hg₂] at hkeq
            have htk : t₁.tkey = t₂.tkey := by
              unfold PeerRequestTask.tkey taskKey
              rw [htg₁, htg₂, hkeq]
            have hide : id = idStar :=
              mem_of_nodup_keys t₂.tkey id idStar s.taskMap wf.mapNodup (htk ▸ hm₁) hm₂
            subst hide
            exact hdisj id (hpd.symm ▸ hstdel) hid
          unfold popPartner
          rw [hres]
          simp only []
          rw [hgp]
          rw [if_neg hkstar]
          intro hmem
          rcases List.mem_cons.mp hmem with hc | hc
          · exact hkne hc
          · exact hold hc
      · rw [if_neg hqp] at hpa'
        exact wf.notActive q pa hpa' id hid
    · -- activeNodup
      intro q pa hpa'
      rw [hlk] at hpa'
      by_cases hqp : q = p
      · rw [if_pos hqp] at hpa'
        injection hpa' with hpa'
        subst hpa'
        cases hres : (popDrain s p).1 with
        | none =>
          unfold popPartner
          rw [hres]
          simp only []
          rw [hgp]
          exact wf.activeNodup p pa0 hpS
        | some idStar =>
          have hst := drain_some s.tasks (getPartner s p).taskQueue.length (getPartner s p).taskQueue idStar hres
          rw [hgp] at hst
          obtain ⟨hstq, hstlive, hstdel⟩ := hst
          have hkstar : (getTask s.tasks idStar).entry.key ∉ pa0.activeBlocks :=
            wf.notActive p pa0 hpS idStar hstq
          unfold popPartner
          rw [hres]
          simp only []
          rw [hgp]
          rw [if_neg hkstar]
          exact List.nodup_cons.mpr ⟨hkstar, wf.activeNodup p pa0 hpS⟩
      · rw [if_neg hqp] at hpa'
        exact wf.activeNodup q pa hpa'

theorem wf_remove (s : Prq) (k : Key) (p : PeerID) (s' : Prq) (wf : WF s)
    (h : Prq.remove s k p = some s') : WF s' := by
  unfold Prq.remove at h
  cases hmap : alookup (taskKey p k) s.taskMap with
  | none =>
    rw [hmap] at h
    injection h with h
    rw [← h]
    exact wf
  | some id =>
    rw [hmap] at h
    cases hp : alookup p s.partners with
    | none => rw [hp] at h; exact absurd h (by simp)
    | some paP =>
      rw [hp] at h
      injection h with h
      rw [← h]
      have hlk : ∀ q : PeerID,
          alookup q (upd p (fun pa => { pa with requests := pa.requests - 1 }) s.partners)
          = if q = p then some { paP with requests := paP.requests - 1 } else alookup q s.partners := by
        intro q
        by_cases hq : q = p
        · subst hq
          rw [if_pos rfl, alookup_upd_self, hp]
          rfl
        · rw [if_neg hq, alookup_upd_ne _ _ _ hq]
      refine ⟨wf.mapNodup, ?_, wf.pQNodup, ?_, ?_, ?_, ?_, ?_, ?_⟩
      · simpa [upd_keys] using wf.partnersNodup
      · intro q hq
        rw [isSome_alookup_upd]
        exact wf.pQPartner q hq
      · -- queueTask
        intro q pa hpa' id' hid'
        rw [hlk] at hpa'
        have hfrom : ∃ paOld, alookup q s.partners = some paOld ∧ paOld.taskQueue = pa.taskQueue := by
          by_cases hq : q = p
          · rw [if_pos hq] at hpa'
            injection hpa' with hpa'
            subst hpa'
            exact ⟨paP, hq ▸ hp, rfl⟩
          · rw [if_neg hq] at hpa'
            exact ⟨pa, hpa', rfl⟩
        obtain ⟨paOld, hOld, hqeq⟩ := hfrom
        rw [← hqeq] at hid'
        obtain ⟨t, ht, htg, hmem⟩ := wf.queueTask q paOld hOld id' hid'
        by_cases hidid : id' = id
        · subst hidid
          refine ⟨{ t with trash := true }, ?_, htg, ?_⟩
          · rw [alookup_upd_self, ht]
            rfl
          · have : ({ t with trash := true } : PeerRequestTask).tkey = t.tkey := rfl
            rw [this]
            exact hmem
        · exact ⟨t, by rw [alookup_upd_ne _ _ _ hidid]; exact ht, htg, hmem⟩
      · -- queueNodup
        intro q pa hpa'
        rw [hlk] at hpa'
        by_cases hq : q = p
        · rw [if_pos hq] at hpa'
          injection hpa' with hpa'
          subst hpa'
          exact wf.queueNodup p paP (hq ▸ hp)
        · rw [if_neg hq] at hpa'
          exact wf.queueNodup q pa hpa'
      · -- idBound
        intro q pa hpa' id' hid'
        rw [hlk] at hpa'
        by_cases hq : q = p
        · rw [if_pos hq] at hpa'
          injection hpa' with hpa'
          subst hpa'
          exact wf.idBound p paP (hq ▸ hp) id' hid'
        · rw [if_neg hq] at hpa'
          exact wf.idBound q pa hpa' id' hid'
      · -- notActive
        intro q pa hpa' id' hid'
        rw [hlk] at hpa'
        have hgk : (getTask (upd id (fun t => { t with trash := true }) s.tasks) id').entry.key
            = (getTask s.tasks id').entry.key := by
          by_cases hidid : id' = id
          · subst hidid
            unfold getTask
            rw [alookup_upd_self]
            cases alookup id' s.tasks <;> rfl
          · unfold getTask
            rw [alookup_upd_ne _ _ _ hidid]
        by_cases hq : q = p
        · rw [if_pos hq] at hpa'
          injection hpa' with hpa'
          subst hpa'
          rw [hgk]
          exact wf.notActive p paP (hq ▸ hp) id' hid'
        · rw [if_neg hq] at hpa'
          rw [hgk]
          exact wf.notActive q pa hpa' id' hid'
      · -- activeNodup
        intro q pa hpa'
        rw [hlk] at hpa'
        by_cases hq : q = p
        · rw [if_pos hq] at hpa'
          injection hpa' with hpa'
          subst hpa'
          exact wf.activeNodup p paP (hq ▸ hp)
        · rw [if_neg hq] at hpa'
          exact wf.activeNodup q pa hpa'

theorem wf_done (s : Prq) (p : PeerID) (k : Key) (s' : Prq) (wf : WF s)
    (h : Prq.taskDone s p k = some s') : WF s' := by
  unfold Prq.taskDone at h
  by_cases hneg : (getPartner s p).active - 1 < 0
  · rw [if_pos hneg] at h
    exact absurd h (by simp)
  · rw [if_neg hneg] at h
    injection h with h
    rw [← h]
    have hlk : ∀ q : PeerID,
        alookup q (upd p (fun _ => { getPartner s p with activeBlocks := (getPartner s p).activeBlocks.erase k, active := (getPartner s p).active - 1 }) s.partners)
        = if q = p
          then (alookup p s.partners).map (fun _ => { getPartner s p with activeBlocks := (getPartner s p).activeBlocks.erase k, active := (getPartner s p).active - 1 })
          else alookup q s.partners := by
      intro q
      by_cases hq : q = p
      · subst hq
        rw [if_pos rfl, alookup_upd_self]
      · rw [if_neg hq, alookup_upd_ne _ _ _ hq]
    refine ⟨wf.mapNodup, ?_, wf.pQNodup, ?_, ?_, ?_, ?_, ?_, ?_⟩
    · simpa [upd_keys] using wf.partnersNodup
    · intro q hq
      rw [isSome_alookup_upd]
      exact wf.pQPartner q hq
    · -- queueTask
      intro q pa hpa' id hid
      rw [hlk] at hpa'
      by_cases hq : q = p
      · rw [if_pos hq] at hpa'
        cases hpold : alookup p s.partners with
        | none => rw [hpold] at hpa'; exact absurd hpa' (by simp)
        | some paP =>
          rw [hpold] at hpa'
          injection hpa' with hpa'
          subst hpa'
          have hgp : getPartner s p = paP := by unfold getPartner; rw [hpold]; rfl
          have hid2 : id ∈ paP.taskQueue := by rw [← hgp]; exact hid
          exact wf.queueTask p paP hpold id hid2
          |>.imp (fun t ⟨ht, htg, hmem⟩ => ⟨ht, by rw [hq]; exact htg, hmem⟩)
      · rw [if_neg hq] at hpa'
        exact wf.queueTask q pa hpa' id hid
    · -- queueNodup
      intro q pa hpa'
      rw [hlk] at hpa'
      by_cases hq : q = p
      · rw [if_pos hq] at hpa'
        cases hpold : alookup p s.partners with
        | none => rw [hpold] at hpa'; exact absurd hpa' (by simp)
        | some paP =>
          rw [hpold] at hpa'
          injection hpa' with hpa'
          subst hpa'
          have hgp : getPartner s p = paP := by unfold getPartner; rw [hpold]; rfl
          rw [hgp]
          exact wf.queueNodup p paP hpold
      · rw [if_neg hq] at hpa'
        exact wf.queueNodup q pa hpa'
    · -- idBound
      intro q pa hpa' id hid
      rw [hlk] at hpa'
      by_cases hq : q = p
      · rw [if_pos hq] at hpa'
        cases hpold : alookup p s.partners with
        | none => rw [hpold] at hpa'; exact absurd hpa' (by simp)
        | some paP =>
          rw [hpold] at hpa'
          injection hpa' with hpa'
          subst hpa'
          have hgp : getPartner s p = paP := by unfold getPartner; rw [hpold]; rfl
          have hid2 : id ∈ paP.taskQueue := by rw [← hgp]; exact hid
          exact wf.idBound p paP hpold id hid2
      · rw [if_neg hq] at hpa'
        exact wf.idBound q pa hpa' id hid
    · -- notActive
      intro q pa hpa' id hid
      rw [hlk] at hpa'
      by_cases hq : q = p
      · rw [if_pos hq] at hpa'
        cases hpold : alookup p s.partners with
        | none => rw [hpold] at hpa'; exact absurd hpa' (by simp)
        | some paP =>
          rw [hpold] at hpa'
          injection hpa' with hpa'
          subst hpa'
          have hgp : getPartner s p = paP := by unfold getPartner; rw [hpold]; rfl
          have hid2 : id ∈ paP.taskQueue := by rw [← hgp]; exact hid
          have hold := wf.notActive p paP hpold id hid2
          rw [hgp]
          intro hmem
          exact hold ((List.erase_sublist _ _).subset hmem)
      · rw [if_neg hq] at hpa'
        exact wf.notActive q pa hpa' id hid
    · -- activeNodup
      intro q pa hpa'
      rw [hlk] at hpa'
      by_cases hq : q = p
      · rw [if_pos hq] at hpa'
        cases hpold : alookup p s.partners with
        | none => rw [hpold] at hpa'; exact absurd hpa' (by simp)
        | some paP =>
          rw [hpold] at hpa'
          injection hpa' with hpa'
          subst hpa'
          have hgp : getPartner s p = paP := by unfold getPartner; rw [hpold]; rfl
          rw [hgp]
          exact (wf.activeNodup p paP hpold).erase k
      · rw [if_neg hq] at hpa'
        exact wf.activeNodup q pa hpa'

/-- A single scheduler operation preserves well-formedness. -/
theorem wf_step {a b : Prq} (wf : WF a) : Step a b → WF b
  | Step.push _ e toPeer => wf_push _ e toPeer wf
  | Step.pop _ => wf_pop _ wf
  | Step.remove _ k p s2 heq => wf_remove _ k p s2 wf heq
  | Step.done _ p k s2 heq => wf_done _ p k s2 wf heq

/-- Every reachable scheduler state is well-formed. -/
theorem reachable_wf (s : Prq) (h : Reachable s) : WF s := by
  induction h with
  | refl => exact wf_newPRQ
  | tail _ hstep ih => exact wf_step ih hstep

/-! ### The active counter equals the size of the active set under guarded `TaskDone` -/

/-- Each partner's `active` counter equals the cardinality of its active
block set. -/
def ACard (s : Prq) : Prop :=
  ∀ p pa, alookup p s.partners = some pa → pa.active = pa.activeBlocks.length

theorem acard_push (s : Prq) (e : Entry) (toPeer : PeerID) (hA : ACard s) :
    ACard (s.push e toPeer) := by
  unfold Prq.push
  cases hpart : alookup toPeer s.partners with
  | some pa0 =>
    simp only [hpart]
    cases hmap : alookup (taskKey toPeer e.key) s.taskMap with
    | some id =>
      simp only [hmap]
      exact fun p pa hpa => hA p pa hpa
    | none =>
      simp only [hmap]
      by_cases hact : e.key ∈ pa0.activeBlocks
      · simp only [if_pos hact]
        exact hA
      · simp only [if_neg hact]
        intro p pa hpa
        by_cases hp : p = toPeer
        · subst hp
          rw [alookup_upd_self, hpart] at hpa
          injection hpa with hpa
          subst hpa
          show pa0.active = pa0.activeBlocks.length
          exact hA p pa0 hpart
        · rw [alookup_upd_ne _ _ _ hp] at hpa
          exact hA p pa hpa
  | none =>
    simp only [hpart]
    have hApa : ∀ q pa, alookup q ((toPeer, newActivePartner) :: s.partners) = some pa →
        pa.active = pa.activeBlocks.length := by
      intro q pa hpa
      rw [alookup_cons] at hpa
      by_cases hq : toPeer = q
      · rw [if_pos hq] at hpa
        injection hpa with hpa
        subst hpa
        rfl
      · rw [if_neg hq] at hpa
        exact hA q pa hpa
    cases hmap : alookup (taskKey toPeer e.key) s.taskMap with
    | some id =>
      simp only [hmap]
      exact fun p pa hpa => hApa p pa hpa
    | none =>
      simp only [hmap]
      have hnotmem : e.key ∉ newActivePartner.activeBlocks := by simp [newActivePartner]
      rw [if_neg hnotmem]
      intro p pa hpa
      by_cases hp : p = toPeer
      · subst hp
        rw [alookup_upd_self] at hpa
        rw [alookup_cons, if_pos rfl] at hpa
        injection hpa with hpa
        subst hpa
        show newActivePartner.active = newActivePartner.activeBlocks.length
        rfl
      · rw [alookup_upd_ne _ _ _ hp] at hpa
        exact hApa p pa hpa

theorem acard_pop (s : Prq) (wf : WF s) (hA : ACard s) : ACard (Prq.pop s).2 := by
  unfold Prq.pop
  cases hch : s.popChosen with
  | none => exact hA
  | some p =>
    intro q pa hpa
    by_cases hq : q = p
    · subst hq
      rw [alookup_upd_self] at hpa
      cases hpS : alookup q s.partners with
      | none => rw [hpS] at hpa; simp at hpa
      | some pa0 =>
        rw [hpS] at hpa
        injection hpa with hpa
        subst hpa
        have hgp : getPartner s q = pa0 := by unfold getPartner; rw [hpS]; rfl
        show (popPartner s q).active = (popPartner s q).activeBlocks.length
        unfold popPartner
        cases hres : (popDrain s q).1 with
        | none =>
          simp only []
          rw [hgp]
          exact hA q pa0 hpS
        | some idStar =>
          simp only []
          rw [hgp]
          have hst := drain_some s.tasks (getPartner s q).taskQueue.length (getPartner s q).taskQueue idStar hres
          rw [hgp] at hst
          have hkstar : (getTask s.tasks idStar).entry.key ∉ pa0.activeBlocks :=
            wf.notActive q pa0 hpS idStar hst.1
          rw [if_neg hkstar]
          simp only [List.length_cons]
          rw [hA q pa0 hpS]
          push_cast
          ring
    · rw [alookup_upd_ne _ _ _ hq] at hpa
      exact hA q pa hpa

theorem acard_remove (s : Prq) (k : Key) (p : PeerID) (s2 : Prq) (hA : ACard s)
    (h : Prq.remove s k p = some s2) : ACard s2 := by
  unfold Prq.remove at h
  cases hmap : alookup (taskKey p k) s.taskMap with
  | none =>
    rw [hmap] at h
    injection h with h
    rw [← h]
    exact hA
  | some id =>
    rw [hmap] at h
    cases hp : alookup p s.partners with
    | none => rw [hp] at h; exact absurd h (by simp)
    | some paP =>
      rw [hp] at h
      injection h with h
      rw [← h]
      intro q pa hpa
      by_cases hq : q = p
      · subst hq
        rw [alookup_upd_self, hp] at hpa
        injection hpa with hpa
        subst hpa
        show paP.active = paP.activeBlocks.length
        exact hA q paP hp
      · rw [alookup_upd_ne _ _ _ hq] at hpa
        exact hA q pa hpa

theorem acard_done (s : Prq) (p : PeerID) (k : Key) (s2 : Prq) (wf : WF s) (hA : ACard s)
    (hk : k ∈ (getPartner s p).activeBlocks)
    (h : Prq.taskDone s p k = some s2) : ACard s2 := by
  unfold Prq.taskDone at h
  by_cases hneg : (getPartner s p).active - 1 < 0
  · rw [if_pos hneg] at h
    exact absurd h (by simp)
  · rw [if_neg hneg] at h
    injection h with h
    rw [← h]
    intro q pa hpa
    by_cases hq : q = p
    · subst hq
      rw [alookup_upd_self] at hpa
      cases hpS : alookup q s.partners with
      | none =>
        exfalso
        have hdef : getPartner s q = newActivePartner := by unfold getPartner; rw [hpS]; rfl
        rw [hdef] at hk
        simp [newActivePartner] at hk
      | some paP =>
        rw [hpS] at hpa
        injection hpa with hpa
        subst hpa
        have hgp : getPartner s q = paP := by unfold getPartner; rw [hpS]; rfl
        show (getPartner s q).active - 1 = (((getPartner s q).activeBlocks.erase k).length : Int)
        rw [hgp] at hk ⊢
        rw [List.length_erase_of_mem hk, hA q paP hpS]
        have hlen : 0 < paP.activeBlocks.length := List.length_pos_of_mem hk
        omega
    · rw [alookup_upd_ne _ _ _ hq] at hpa
      exact hA q pa hpa

theorem gstep_step {a b : Prq} : GStep a b → Step a b
  | GStep.push _ e toPeer => Step.push _ e toPeer
  | GStep.pop _ => Step.pop _
  | GStep.remove _ k p s2 h => Step.remove _ k p s2 h
  | GStep.done _ p k s2 _ h => Step.done _ p k s2 h

theorem acard_gstep {a b : Prq} (wf : WF a) (hA : ACard a) : GStep a b → ACard b
  | GStep.push _ e toPeer => acard_push _ e toPeer hA
  | GStep.pop _ => acard_pop _ wf hA
  | GStep.remove _ k p s2 h => acard_remove _ k p s2 hA h
  | GStep.done _ p k s2 hk h => acard_done _ p k s2 wf hA hk h

/-- Under at-most-once `TaskDone` per `StartTask`, every reachable state is
well-formed and every partner's `active` counter counts its active set. -/
theorem greachable_inv (s : Prq) (h : GReachable s) : WF s ∧ ACard s := by
  induction h with
  | refl =>
    refine ⟨wf_newPRQ, ?_⟩
    intro p pa hpa
    simp [newPRQ, alookup] at hpa
  | tail _ hstep ih =>
    exact ⟨wf_step ih.1 (gstep_step hstep), acard_gstep ih.1 ih.2 hstep⟩

/-! ### Claim theorems about the scheduler -/

theorem filter_length_le_one (P : α → Bool) :
    ∀ l : List α, l.Nodup → (∀ x ∈ l, ∀ y ∈ l, P x = true → P y = true → x = y) →
      (l.filter P).length ≤ 1 := by
  intro l
  induction l with
  | nil => intro _ _; simp
  | cons a rest ih =>
    intro hnd huniq
    rw [List.nodup_cons] at hnd
    by_cases hPa : P a = true
    · rw [List.filter_cons_of_pos hPa]
      simp only [List.length_cons]
      have hempty : rest.filter P = [] := by
        rw [List.filter_eq_nil]
        intro x hx hPx
        have heq := huniq a (List.mem_cons_self _ _) x (List.mem_cons_of_mem _ hx) hPa hPx
        exact hnd.1 (heq ▸ hx)
      rw [hempty]
      simp
    · rw [List.filter_cons_of_neg (by simpa using hPa)]
      exact ih hnd.2 (fun x hx y hy => huniq x (List.mem_cons_of_mem _ hx) y (List.mem_cons_of_mem _ hy))

/-- Does the task stored under `id` serve `(p, k)`? -/
def taskMatches (tasks : List (Nat × PeerRequestTask)) (p : PeerID) (k : Key) (id : Nat) : Bool :=
  match alookup id tasks with
  | some t => t.target == p && t.entry.key == k
  | none => false

/-- Claim C1: for every sequence of Push, Pop and Remove operations on the
decision engine's peer request queue, at most one task exists for any given
(peer, key) pair at any time; Push on an existing (peer, key) only updates
the existing task's priority in place (task map, partners, id counter
untouched), and Push returns without enqueuing (state unchanged) when the
key is in that peer's active set. -/
theorem claim_C1_at_most_one_task (s : Prq) (hR : Reachable s) (p : PeerID) (k : Key)
    (pa : ActivePartner) (hpa : alookup p s.partners = some pa) :
    (pa.taskQueue.filter (taskMatches s.tasks p k)).length ≤ 1
    ∧ (∀ (pr : Int) (id : Nat), alookup (taskKey p k) s.taskMap = some id →
        (s.push { key := k, priority := pr } p).taskMap = s.taskMap
        ∧ (s.push { key := k, priority := pr } p).partners = s.partners
        ∧ (s.push { key := k, priority := pr } p).nextId = s.nextId
        ∧ (s.push { key := k, priority := pr } p).tasks
            = upd id (fun t => { t with entry := { t.entry with priority := pr } }) s.tasks)
    ∧ (∀ pr : Int, alookup (taskKey p k) s.taskMap = none → k ∈ pa.activeBlocks →
        s.push { key := k, priority := pr } p = s) := by
  have wf := reachable_wf s hR
  refine ⟨?_, ?_, ?_⟩
  · apply filter_length_le_one _ _ (wf.queueNodup p pa hpa)
    intro x hx y hy hPx hPy
    obtain ⟨tx, htx, htgx, hmx⟩ := wf.queueTask p pa hpa x hx
    obtain ⟨ty, hty, htgy, hmy⟩ := wf.queueTask p pa hpa y hy
    unfold taskMatches at hPx hPy
    rw [htx] at hPx
    rw [hty] at hPy
    simp at hPx hPy
    have htkx : tx.tkey = taskKey p k := by
      unfold PeerRequestTask.tkey
      rw [hPx.1, hPx.2]
    have htky : ty.tkey = taskKey p k := by
      unfold PeerRequestTask.tkey
      rw [hPy.1, hPy.2]
    exact mem_of_nodup_keys (taskKey p k) x y s.taskMap wf.mapNodup (htkx ▸ hmx) (htky ▸ hmy)
  · intro pr id hmap
    unfold Prq.push
    simp [hpa, hmap]
  · intro pr hmap hact
    unfold Prq.push
    simp only [hpa, hmap]
    rw [if_pos hact]

/-- Claim C2: the outer comparator ranks a peer with zero pending requests
below every peer with pending requests, otherwise the smaller active count
ranks higher; `Pop` never serves a peer with `pending = 0` while another
queued peer has `pending > 0`; and `Pop` yields no task when every queued
peer has only trashed tasks. -/
theorem claim_C2_partner_ranking (s : Prq) :
    (∀ pa pb : ActivePartner, pa.requests = 0 → partnerCompare pa pb = false)
    ∧ (∀ pa pb : ActivePartner, 0 < pa.requests → pb.requests = 0 → partnerCompare pa pb = true)
    ∧ (∀ pa pb : ActivePartner, 0 < pa.requests → 0 < pb.requests →
        (partnerCompare pa pb = true ↔ pa.active < pb.active))
    ∧ (∀ p : PeerID, s.popChosen = some p → (getPartner s p).requests = 0 →
        ∀ q ∈ s.pQueue, ¬ 0 < (getPartner s q).requests)
    ∧ ((∀ p ∈ s.pQueue, ∀ id ∈ (getPartner s p).taskQueue, (getTask s.tasks id).trash = true) →
        (Prq.pop s).1 = none) := by
  refine ⟨?_, ?_, ?_, ?_, ?_⟩
  · intro pa pb h
    unfold partnerCompare
    rw [if_pos h]
  · intro pa pb ha hb
    unfold partnerCompare
    rw [if_neg (by omega), if_pos hb]
  · intro pa pb ha hb
    unfold partnerCompare
    rw [if_neg (by omega), if_neg (by omega)]
    simp
  · intro p hch hzero q hq hpos
    have hmax : partnerCompare (getPartner s q) (getPartner s p) = false := by
      unfold Prq.popChosen at hch
      cases hqq : s.pQueue with
      | nil => rw [hqq] at hch; simp at hch
      | cons q0 rest =>
        rw [hqq] at hch
        simp only [Option.some.injEq] at hch
        rw [hqq] at hq
        rw [← hch]
        exact pickBest_max (fun a b => partnerCompare (getPartner s a) (getPartner s b))
          (fun a => partnerCompare_irrefl _)
          (fun a b c => partnerCompare_trans _ _ _)
          (fun a b c => partnerCompare_negTrans _ _ _)
          rest q0 q hq
    unfold partnerCompare at hmax
    rw [if_neg (by omega), if_pos hzero] at hmax
    exact absurd hmax (by simp)
  · intro hall
    unfold Prq.pop
    cases hch : s.popChosen with
    | none => rfl
    | some p =>
      have hp : p ∈ s.pQueue := popChosen_mem s p hch
      have hnone : (popDrain s p).1 = none := by
        unfold popDrain
        exact drain_none_of_all_trash _ _ _ (hall p hp)
      simp only [hnone]
      rfl

/-! ### Membership in a partner's active set is preserved by every operation
except that partner's own `TaskDone` for that key -/

theorem activeBlocks_mono_push (u : Prq) (e : Entry) (q p1 : PeerID) (k1 : Key)
    (h : k1 ∈ (getPartner u p1).activeBlocks) :
    k1 ∈ (getPartner (u.push e q) p1).activeBlocks := by
  unfold Prq.push
  cases hpart : alookup q u.partners with
  | some pa0 =>
    simp only [hpart]
    cases hmap : alookup (taskKey q e.key) u.taskMap with
    | some id =>
      simp only [hmap]
      exact h
    | none =>
      simp only [hmap]
      by_cases hact : e.key ∈ pa0.activeBlocks
      · rw [if_pos hact]
        exact h
      · rw [if_neg hact]
        unfold getPartner at h ⊢
        by_cases hp : p1 = q
        · subst hp
          rw [alookup_upd_self, hpart]
          rw [hpart] at h
          exact h
        · rw [alookup_upd_ne _ _ _ hp]
          exact h
  | none =>
    simp only [hpart]
    by_cases hp : p1 = q
    · subst hp
      unfold getPartner at h
      rw [hpart] at h
      simp [newActivePartner] at h
    · have hnm : e.key ∉ newActivePartner.activeBlocks := by simp [newActivePartner]
      cases hmap : alookup (taskKey q e.key) u.taskMap with
      | some id =>
        simp only [hmap]
        unfold getPartner at h ⊢
        rw [alookup_cons, if_neg (fun hh => hp hh.symm)]
        exact h
      | none =>
        simp only [hmap]
        rw [if_neg hnm]
        unfold getPartner at h ⊢
        rw [alookup_upd_ne _ _ _ hp, alookup_cons, if_neg (fun hh => hp hh.symm)]
        exact h

theorem activeBlocks_mono_pop (u : Prq) (p1 : PeerID) (k1 : Key)
    (h : k1 ∈ (getPartner u p1).activeBlocks) :
    k1 ∈ (getPartner (Prq.pop u).2 p1).activeBlocks := by
  unfold Prq.pop
  cases hch : u.popChosen with
  | none => exact h
  | some p =>
    unfold getPartner at h ⊢
    by_cases hp : p1 = p
    · subst hp
      rw [alookup_upd_self]
      cases hpS : alookup p1 u.partners with
      | none =>
        rw [hpS] at h
        simp [newActivePartner] at h
      | some pa0 =>
        rw [hpS] at h
        have h2 : k1 ∈ pa0.activeBlocks := h
        have hgp : getPartner u p1 = pa0 := by unfold getPartner; rw [hpS]; rfl
        show k1 ∈ (popPartner u p1).activeBlocks
        unfold popPartner
        cases hdr : (popDrain u p1).1 with
        | none =>
          show k1 ∈ (getPartner u p1).activeBlocks
          rw [hgp]
          exact h2
        | some idStar =>
          show k1 ∈ (if (getTask u.tasks idStar).entry.key ∈ (getPartner u p1).activeBlocks
                     then (getPartner u p1).activeBlocks
                     else (getTask u.tasks idStar).entry.key :: (getPartner u p1).activeBlocks)
          rw [hgp]
          by_cases hmem : (getTask u.tasks idStar).entry.key ∈ pa0.activeBlocks
          · rw [if_pos hmem]
            exact h2
          · rw [if_neg hmem]
            exact List.mem_cons_of_mem _ h2
    · rw [alookup_upd_ne _ _ _ hp]
      exact h

theorem activeBlocks_mono_remove (u v : Prq) (kk : Key) (q p1 : PeerID) (k1 : Key)
    (hrm : Prq.remove u kk q = some v)
    (h : k1 ∈ (getPartner u p1).activeBlocks) :
    k1 ∈ (getPartner v p1).activeBlocks := by
  unfold Prq.remove at hrm
  cases hmap : alookup (taskKey q kk) u.taskMap with
  | none =>
    rw [hmap] at hrm
    injection hrm with hrm
    rw [← hrm]
    exact h
  | some id =>
    rw [hmap] at hrm
    cases hq : alookup q u.partners with
    | none => rw [hq] at hrm; exact absurd hrm (by simp)
    | some paP =>
      rw [hq] at hrm
      injection hrm with hrm
      rw [← hrm]
      unfold getPartner at h ⊢
      by_cases hp : p1 = q
      · subst hp
        rw [alookup_upd_self, hq]
        rw [hq] at h
        exact h
      · rw [alookup_upd_ne _ _ _ hp]
        exact h

theorem activeBlocks_done_other (u v : Prq) (pd p1 : PeerID) (kd k1 : Key)
    (hne : ¬(pd = p1 ∧ kd = k1)) (hdn : Prq.taskDone u pd kd = some v)
    (h : k1 ∈ (getPartner u p1).activeBlocks) :
    k1 ∈ (getPartner v p1).activeBlocks := by
  unfold Prq.taskDone at hdn
  by_cases hneg : (getPartner u pd).active - 1 < 0
  · rw [if_pos hneg] at hdn
    exact absurd hdn (by simp)
  · rw [if_neg hneg] at hdn
    injection hdn with hdn
    rw [← hdn]
    unfold getPartner at h ⊢
    by_cases hp : p1 = pd
    · subst hp
      rw [alookup_upd_self]
      cases hpS : alookup p1 u.partners with
      | none =>
        rw [hpS] at h
        simp [newActivePartner] at h
      | some pa0 =>
        rw [hpS] at h
        have h2 : k1 ∈ pa0.activeBlocks := h
        have hkne : k1 ≠ kd := by
          intro hh
          exact hne ⟨rfl, hh.symm⟩
        have hgp : getPartner u p1 = pa0 := by unfold getPartner; rw [hpS]; rfl
        show k1 ∈ pa0.activeBlocks.erase kd
        exact (List.mem_erase_of_ne hkne).mpr h2
    · rw [alookup_upd_ne _ _ _ hp]
      exact h

/-- Claim C3: when `Pop` yields a task for `(p, k)`, immediately afterwards
`k` is in `p`'s active-block set and `p`'s pending counter has dropped by
exactly one; the key stays in the active set across every further operation
other than the task's own `Done` (`TaskDone p k`), and that `Done` removes
the key and decrements `p`'s active counter. -/
theorem claim_C3_pop_active_until_done (s : Prq) (hR : Reachable s)
    (t : PeerRequestTask) (s' : Prq) (hpop : Prq.pop s = (some t, s'))
    (s'' : Prq) (hdone : Prq.taskDone s' t.target t.entry.key = some s'') :
    t.entry.key ∈ (getPartner s' t.target).activeBlocks
    ∧ (getPartner s' t.target).requests = (getPartner s t.target).requests - 1
    ∧ t.entry.key ∉ (getPartner s'' t.target).activeBlocks
    ∧ (getPartner s'' t.target).active = (getPartner s' t.target).active - 1
    ∧ (∀ (u : Prq) (e : Entry) (q : PeerID), t.entry.key ∈ (getPartner u t.target).activeBlocks →
        t.entry.key ∈ (getPartner (u.push e q) t.target).activeBlocks)
    ∧ (∀ u : Prq, t.entry.key ∈ (getPartner u t.target).activeBlocks →
        t.entry.key ∈ (getPartner (Prq.pop u).2 t.target).activeBlocks)
    ∧ (∀ (u v : Prq) (kk : Key) (q : PeerID), Prq.remove u kk q = some v →
        t.entry.key ∈ (getPartner u t.target).activeBlocks →
        t.entry.key ∈ (getPartner v t.target).activeBlocks)
    ∧ (∀ (u v : Prq) (pd : PeerID) (kd : Key), ¬(pd = t.target ∧ kd = t.entry.key) →
        Prq.taskDone u pd kd = some v →
        t.entry.key ∈ (getPartner u t.target).activeBlocks →
        t.entry.key ∈ (getPartner v t.target).activeBlocks) := by
  have wf := reachable_wf s hR
  have hR' : Reachable s' := by
    have hstep : Step s (Prq.pop s).2 := Step.pop s
    rw [hpop] at hstep
    exact Relation.ReflTransGen.tail hR hstep
  have wf' := reachable_wf s' hR'
  -- unpack the successful pop
  unfold Prq.pop at hpop
  cases hch : s.popChosen with
  | none =>
    rw [hch] at hpop
    simp at hpop
  | some p =>
    rw [hch] at hpop
    rw [Prod.mk.injEq] at hpop
    obtain ⟨h1, h2⟩ := hpop
    obtain ⟨idStar, hres, htsk⟩ := Option.map_eq_some'.mp h1
    have hpq : p ∈ s.pQueue := popChosen_mem s p hch
    have hsome := wf.pQPartner p hpq
    obtain ⟨pa0, hpS⟩ : ∃ pa0, alookup p s.partners = some pa0 := by
      cases hx : alookup p s.partners with
      | none => rw [hx] at hsome; simp at hsome
      | some y => exact ⟨y, rfl⟩
    have hgp : getPartner s p = pa0 := by unfold getPartner; rw [hpS]; rfl
    have hst := drain_some s.tasks (getPartner s p).taskQueue.length (getPartner s p).taskQueue idStar hres
    rw [hgp] at hst
    obtain ⟨hstq, hstlive, hstdel⟩ := hst
    -- the popped task targets the chosen partner
    obtain ⟨t0, ht0, htg0, hm0⟩ := wf.queueTask p pa0 hpS idStar hstq
    have hgt : getTask s.tasks idStar = t0 := by unfold getTask; rw [ht0]; rfl
    have htt0 : t = t0 := by rw [← htsk, hgt]
    have htarget : t.target = p := by rw [htt0]; exact htg0
    have hkey : t.entry.key = (getTask s.tasks idStar).entry.key := by rw [← htsk]
    have hkstar : (getTask s.tasks idStar).entry.key ∉ pa0.activeBlocks :=
      wf.notActive p pa0 hpS idStar hstq
    -- the partner recorded in s'
    have hlk' : alookup t.target s'.partners = some (popPartner s p) := by
      rw [← h2, htarget]
      show alookup p (upd p (fun _ => popPartner s p) s.partners) = some (popPartner s p)
      rw [alookup_upd_self, hpS]
      rfl
    have hgp' : getPartner s' t.target = popPartner s p := by
      unfold getPartner
      rw [hlk']
      rfl
    have hkstar2 : (getTask s.tasks idStar).entry.key ∉ (getPartner s p).activeBlocks := by
      rw [hgp]
      exact hkstar
    have hpp : popPartner s p
        = { pa0 with taskQueue := (popDrain s p).2.1,
                     activeBlocks := (getTask s.tasks idStar).entry.key :: pa0.activeBlocks,
                     active := pa0.active + 1,
                     requests := pa0.requests - 1 } := by
      unfold popPartner
      rw [hres]
      show ({ getPartner s p with
              taskQueue := (popDrain s p).2.1,
              activeBlocks := if (getTask s.tasks idStar).entry.key ∈ (getPartner s p).activeBlocks
                              then (getPartner s p).activeBlocks
                              else (getTask s.tasks idStar).entry.key :: (getPartner s p).activeBlocks,
              active := (getPartner s p).active + 1,
              requests := (getPartner s p).requests - 1 } : ActivePartner)
          = { pa0 with taskQueue := (popDrain s p).2.1,
                       activeBlocks := (getTask s.tasks idStar).entry.key :: pa0.activeBlocks,
                       active := pa0.active + 1,
                       requests := pa0.requests - 1 }
      rw [if_neg hkstar2, hgp]
    have hmemA : t.entry.key ∈ (getPartner s' t.target).activeBlocks := by
      rw [hgp', hpp, hkey]
      exact List.mem_cons_self _ _
    refine ⟨hmemA, ?_, ?_, ?_, ?_, ?_, ?_, ?_⟩
    · rw [hgp', hpp, htarget, hgp]
    · -- after Done the key is gone
      unfold Prq.taskDone at hdone
      by_cases hneg : (getPartner s' t.target).active - 1 < 0
      · rw [if_pos hneg] at hdone
        exact absurd hdone (by simp)
      · rw [if_neg hneg] at hdone
        injection hdone with hdone
        have hlk'' : alookup t.target s''.partners
            = some { getPartner s' t.target with
                     activeBlocks := (getPartner s' t.target).activeBlocks.erase t.entry.key,
                     active := (getPartner s' t.target).active - 1 } := by
          rw [← hdone]
          show alookup t.target (upd t.target _ s'.partners) = _
          rw [alookup_upd_self, hlk']
          rfl
        have hgp'' : getPartner s'' t.target
            = { getPartner s' t.target with
                activeBlocks := (getPartner s' t.target).activeBlocks.erase t.entry.key,
                active := (getPartner s' t.target).active - 1 } := by
          unfold getPartner
          rw [hlk'']
          rfl
        rw [hgp'']
        have hnd : (getPartner s' t.target).activeBlocks.Nodup := by
          rw [hgp']
          exact wf'.activeNodup t.target (popPartner s p) hlk'
        exact hnd.not_mem_erase
    · -- Done decrements active by one
      unfold Prq.taskDone at hdone
      by_cases hneg : (getPartner s' t.target).active - 1 < 0
      · rw [if_pos hneg] at hdone
        exact absurd hdone (by simp)
      · rw [if_neg hneg] at hdone
        injection hdone with hdone
        have hlk'' : alookup t.target s''.partners
            = some { getPartner s' t.target with
                     activeBlocks := (getPartner s' t.target).activeBlocks.erase t.entry.key,
                     active := (getPartner s' t.target).active - 1 } := by
          rw [← hdone]
          show alookup t.target (upd t.target _ s'.partners) = _
          rw [alookup_upd_self, hlk']
          rfl
        have hgp'' : getPartner s'' t.target
            = { getPartner s' t.target with
                activeBlocks := (getPartner s' t.target).activeBlocks.erase t.entry.key,
                active := (getPartner s' t.target).active - 1 } := by
          unfold getPartner
          rw [hlk'']
          rfl
        rw [hgp'']
    · intro u e q hmem
      exact activeBlocks_mono_push u e q t.target t.entry.key hmem
    · intro u hmem
      exact activeBlocks_mono_pop u t.target t.entry.key hmem
    · intro u v kk q hrm hmem
      exact activeBlocks_mono_remove u v kk q t.target t.entry.key hrm hmem
    · intro u v pd kd hne hdn hmem
      exact activeBlocks_done_other u v pd t.target kd t.entry.key hne hdn hmem

/-- Claim C8: a `TaskDone` that would drive the partner's `active` counter
negative traps (returns `none`, the panic); and under the precondition that
every `TaskDone` matches a preceding `StartTask` that is still active, the
counter is never negative and the trap branch is unreachable. -/
theorem claim_C8_taskdone_trap (s : Prq) (hG : GReachable s) :
    (∀ (u : Prq) (p : PeerID) (k : Key), (getPartner u p).active ≤ 0 →
        Prq.taskDone u p k = none)
    ∧ (∀ p : PeerID, 0 ≤ (getPartner s p).active)
    ∧ (∀ (p : PeerID) (k : Key), k ∈ (getPartner s p).activeBlocks →
        Prq.taskDone s p k ≠ none) := by
  obtain ⟨wf, hA⟩ := greachable_inv s hG
  refine ⟨?_, ?_, ?_⟩
  · intro u p k hle
    unfold Prq.taskDone
    rw [if_pos (by omega : (getPartner u p).active - 1 < 0)]
  · intro p
    cases hpS : alookup p s.partners with
    | none =>
      unfold getPartner
      rw [hpS]
      simp [newActivePartner]
    | some pa =>
      have hgp : getPartner s p = pa := by unfold getPartner; rw [hpS]; rfl
      rw [hgp, hA p pa hpS]
      exact Int.natCast_nonneg _
  · intro p k hk
    cases hpS : alookup p s.partners with
    | none =>
      exfalso
      have hdef : getPartner s p = newActivePartner := by unfold getPartner; rw [hpS]; rfl
      rw [hdef] at hk
      simp [newActivePartner] at hk
    | some pa =>
      have hgp : getPartner s p = pa := by unfold getPartner; rw [hpS]; rfl
      have hlen : 0 < pa.activeBlocks.length := List.length_pos_of_mem (hgp ▸ hk)
      have hac : pa.active = pa.activeBlocks.length := hA p pa hpS
      unfold Prq.taskDone
      rw [if_neg (by show ¬((getPartner s p).active - 1 < 0); rw [hgp]; omega)]
      simp

/-- Claim C9: a `Push` for a `(peer, key)` whose task has been trashed by
`Remove` but not yet popped only updates the trashed task's priority: the
trash mark stays, no task is re-created, no counter changes; and a trashed
task is never yielded by `Pop`, so no envelope is produced for it. -/
theorem claim_C9_push_on_trashed (s : Prq) (p : PeerID) (k : Key) (id : Nat)
    (t : PeerRequestTask) (pa : ActivePartner) (pr : Int)
    (hmap : alookup (taskKey p k) s.taskMap = some id)
    (ht : alookup id s.tasks = some t) (htr : t.trash = true)
    (hpa : alookup p s.partners = some pa) :
    alookup id (s.push { key := k, priority := pr } p).tasks
        = some { t with entry := { t.entry with priority := pr } }
    ∧ ({ t with entry := { t.entry with priority := pr } } : PeerRequestTask).trash = true
    ∧ (s.push { key := k, priority := pr } p).taskMap = s.taskMap
    ∧ (s.push { key := k, priority := pr } p).partners = s.partners
    ∧ (s.push { key := k, priority := pr } p).nextId = s.nextId
    ∧ (s.push { key := k, priority := pr } p).pQueue = s.pQueue
    ∧ (∀ (u v : Prq) (t2 : PeerRequestTask), Prq.pop u = (some t2, v) → t2.trash = false) := by
  refine ⟨?_, htr, ?_, ?_, ?_, ?_, ?_⟩
  · unfold Prq.push
    simp only [hpa, hmap]
    show alookup id (upd id _ s.tasks) = _
    rw [alookup_upd_self, ht]
    rfl
  · unfold Prq.push
    simp [hpa, hmap]
  · unfold Prq.push
    simp [hpa, hmap]
  · unfold Prq.push
    simp [hpa, hmap]
  · unfold Prq.push
    simp [hpa, hmap]
  · intro u v t2 hpop
    unfold Prq.pop at hpop
    cases hch : u.popChosen with
    | none =>
      rw [hch] at hpop
      simp at hpop
    | some q =>
      rw [hch] at hpop
      have h1 : (popDrain u q).1.map (getTask u.tasks) = some t2 := by
        have := congrArg Prod.fst hpop
        simpa using this
      obtain ⟨id2, hid2, hmap2⟩ := Option.map_eq_some'.mp h1
      have := drain_some u.tasks (getPartner u q).taskQueue.length (getPartner u q).taskQueue id2 hid2
      rw [← hmap2]
      exact this.2.1

/-! ### Client worker priority assignment (`clientWorker` / `wantNewBlocks`) -/

/-- `kMaxPriority` is `math.MaxInt32`, the max priority defined by the
bitswap protocol. -/
def kMaxPriority : Int := 2147483647

/-- The wantlist additions performed by `Bitswap.clientWorker` for one
batch: `bs.wantlist.Add(k, kMaxPriority-i)` for each index `i` and key `k`
(plain integer arithmetic, exactly as in the source). -/
def clientWorkerAdds : Nat → List Key → List (Key × Int)
  | _, [] => []
  | i, k :: ks => (k, kMaxPriority - i) :: clientWorkerAdds (i + 1) ks

/-- The wantlist entries broadcast by `Bitswap.wantNewBlocks`:
`message.AddEntry(k, kMaxPriority-i)` for each index `i` and key `k`. -/
def wantNewBlocksEntries : Nat → List Key → List (Key × Int)
  | _, [] => []
  | i, k :: ks => (k, kMaxPriority - i) :: wantNewBlocksEntries (i + 1) ks

theorem clientWorkerAdds_get? (l : List Key) :
    ∀ (i j : Nat), (clientWorkerAdds i l).get? j
      = (l.get? j).map (fun k => (k, kMaxPriority - (i + j))) := by
  induction l with
  | nil => intro i j; simp [clientWorkerAdds]
  | cons k ks ih =>
    intro i j
    cases j with
    | zero => simp [clientWorkerAdds]
    | succ j =>
      rw [clientWorkerAdds]
      show (clientWorkerAdds (i + 1) ks).get? j
        = (ks.get? j).map (fun k => (k, kMaxPriority - (i + (j + 1))))
      rw [ih (i + 1) j]
      have harith : ((i + 1 : Nat) + j : Int) = ((i : Int) + ((j : Nat) + 1 : Nat)) := by
        push_cast
        ring
      rw [harith]
      norm_cast

theorem wantNewBlocksEntries_eq : ∀ (i : Nat) (l : List Key),
    wantNewBlocksEntries i l = clientWorkerAdds i l := by
  intro i l
  induction l generalizing i with
  | nil => rfl
  | cons k ks ih =>
    rw [wantNewBlocksEntries, clientWorkerAdds, ih]

theorem get?_replicate (a : α) : ∀ (n m : Nat), m < n → (List.replicate n a).get? m = some a := by
  intro n
  induction n with
  | zero => intro m h; omega
  | succ n ih =>
    intro m h
    cases m with
    | zero => rfl
    | succ m =>
      rw [List.replicate_succ]
      show (List.replicate n a).get? m = some a
      exact ih m (by omega)

/-- Claim C4 counterexample: the claim says a batch of N > MaxPriority keys
assigns the tail keys priority 0 with no underflow; in the code the priority
is plain `kMaxPriority - i`, so in a batch of 2^31+1 keys the last key gets
priority -1 < 0 — there is no saturation. -/
theorem claim_C4_counterexample :
    (clientWorkerAdds 0 (List.replicate 2147483649 "k")).get? 2147483648
      = some ("k", -1)
    ∧ ((-1 : Int) < 0)
    ∧ (clientWorkerAdds 0 (List.replicate 2147483649 "k")).get? 2147483648
      ≠ some ("k", 0) := by
  have h := clientWorkerAdds_get? (List.replicate 2147483649 "k") 0 2147483648
  rw [get?_replicate "k" 2147483649 2147483648 (by norm_num)] at h
  have heq : (clientWorkerAdds 0 (List.replicate 2147483649 "k")).get? 2147483648
      = some ("k", -1) := by
    rw [h]
    simp only [Option.map_some']
    norm_num [kMaxPriority]
  refine ⟨heq, by norm_num, ?_⟩
  rw [heq]
  decide

/-- Claim C4 amended: for every batch the client worker adds `keys[j]` to
the local wantlist with priority `kMaxPriority - j` as plain integer
arithmetic, and `wantNewBlocks` broadcasts exactly the same priorities;
there is no saturation, so any index beyond `kMaxPriority` yields a
negative priority rather than 0. -/
theorem claim_C4_priorities_by_index (keys : List Key) (j : Nat) :
    (clientWorkerAdds 0 keys).get? j
      = (keys.get? j).map (fun k => (k, kMaxPriority - j))
    ∧ wantNewBlocksEntries 0 keys = clientWorkerAdds 0 keys
    ∧ (∀ i : Nat, kMaxPriority < (i : Int) → kMaxPriority - (i : Int) < 0) := by
  refine ⟨?_, wantNewBlocksEntries_eq 0 keys, ?_⟩
  · rw [clientWorkerAdds_get? keys 0 j]
    norm_num
  · intro i hi
    omega

/-- Concrete check of the amended C4 statement on a two-key batch and on an
index past `kMaxPriority`. -/
theorem claim_C4_witness :
    (clientWorkerAdds 0 ["a", "b"]).get? 1 = some ("b", kMaxPriority - 1)
    ∧ wantNewBlocksEntries 0 ["a", "b"] = clientWorkerAdds 0 ["a", "b"]
    ∧ kMaxPriority - ((2147483648 : Nat) : Int) < 0 := by
  have h := claim_C4_priorities_by_index ["a", "b"] 1
  refine ⟨?_, h.2.1, h.2.2 2147483648 (by norm_num [kMaxPriority])⟩
  rw [h.1]
  norm_num

/-! ### Peer manager send queue (`msgQueue.AddMessage`) -/

abbrev BlockData := String

/-- A wantlist entry of a bitswap message (`(Key, Priority, Cancel)`). -/
structure WEntry where
  key : Key
  priority : Int
  cancel : Bool
deriving DecidableEq, Repr

/-- A bitswap message: `Full` flag, wantlist entries and block payloads. -/
structure BsMessage where
  full : Bool
  wantlist : List WEntry
  blocks : List (Key × BlockData)
deriving DecidableEq, Repr

/-- Modelled from the spec: the message codec (package `bsmsg`) is not in
the sources; per the spec a message carries a set of wantlist entries keyed
by block key, each either add-with-priority or cancel, and `AddEntry` /
`Cancel` record an entry for the key, replacing any previous one. -/
def insertEntry (e : WEntry) : List WEntry → List WEntry
  | [] => [e]
  | e2 :: rest => if e2.key = e.key then e :: rest else e2 :: insertEntry e rest

/-- Modelled from the spec: `AddEntry(key, priority)` records an additive
wantlist entry for the key. -/
def BsMessage.addEntry (m : BsMessage) (k : Key) (p : Int) : BsMessage :=
  { m with wantlist := insertEntry { key := k, priority := p, cancel := false } m.wantlist }

/-- Modelled from the spec: `Cancel(key)` records a retraction entry for
the key. -/
def BsMessage.cancel (m : BsMessage) (k : Key) : BsMessage :=
  { m with wantlist := insertEntry { key := k, priority := 0, cancel := true } m.wantlist }

def wlFind (k : Key) : List WEntry → Option WEntry
  | [] => none
  | e :: rest => if e.key = k then some e else wlFind k rest

/-- The entry a message's wantlist holds for a key. -/
def wlLookup (m : BsMessage) (k : Key) : Option WEntry := wlFind k m.wantlist

/-- Go map assignment `mq.blocks[blk.Key()] = blk`. -/
def setBlock (k : Key) (b : BlockData) : List (Key × BlockData) → List (Key × BlockData)
  | [] => [(k, b)]
  | kb :: rest => if kb.1 = k then (k, b) :: rest else kb :: setBlock k b rest

/-- A per-peer send queue: the pending wantlist message and the key-indexed
payload map (`msgQueue.wlmsg` and `msgQueue.blocks`). -/
structure MsgQueue where
  wlmsg : Option BsMessage
  blocks : List (Key × BlockData)
deriving DecidableEq, Repr

/-- `msgQueue.AddMessage`: move every block of the message into the payload
map (last one wins per key), clear the message's blocks, then adopt the
message as the pending wantlist when the queue has none or the message is
`Full`, and otherwise merge each of its wantlist entries into the pending
message (`Cancel` entries via `Cancel`, others via `AddEntry`). -/
def MsgQueue.addMessage (mq : MsgQueue) (m : BsMessage) : MsgQueue :=
  let blocks2 := m.blocks.foldl (fun acc kb => setBlock kb.1 kb.2 acc) mq.blocks
  let m2 : BsMessage := { m with blocks := [] }
  match mq.wlmsg with
  | none => { wlmsg := some m2, blocks := blocks2 }
  | some w =>
      if m.full then { wlmsg := some m2, blocks := blocks2 }
      else
        { wlmsg := some (m.wantlist.foldl
            (fun acc e => if e.cancel then acc.cancel e.key else acc.addEntry e.key e.priority) w),
          blocks := blocks2 }

/-- The payload the last block of a message carries for a key. -/
def lastBlockFor (k : Key) : List (Key × BlockData) → Option BlockData
  | [] => none
  | kb :: rest =>
      match lastBlockFor k rest with
      | some b => some b
      | none => if kb.1 = k then some kb.2 else none

/-- The last wantlist entry of a message for a key. -/
def lastEntryFor (k : Key) : List WEntry → Option WEntry
  | [] => none
  | e :: rest =>
      match lastEntryFor k rest with
      | some e2 => some e2
      | none => if e.key = k then some e else none

theorem alookup_setBlock_self (k : Key) (b : BlockData) :
    ∀ l : List (Key × BlockData), alookup k (setBlock k b l) = some b := by
  intro l
  induction l with
  | nil => simp [setBlock, alookup]
  | cons kb rest ih =>
    by_cases h : kb.1 = k
    · simp [setBlock, h, alookup]
    · simp [setBlock, h, alookup, ih]

theorem alookup_setBlock_ne (k k2 : Key) (b : BlockData) (hne : k2 ≠ k) :
    ∀ l : List (Key × BlockData), alookup k2 (setBlock k b l) = alookup k2 l := by
  intro l
  have h3 : ¬ k = k2 := fun hh => hne hh.symm
  induction l with
  | nil => simp [setBlock, alookup, h3]
  | cons kb rest ih =>
    by_cases h : kb.1 = k
    · have h2 : ¬ kb.1 = k2 := fun hh => hne (by rw [← hh, h])
      simp [setBlock, alookup, h, h2, h3]
    · by_cases h2 : kb.1 = k2
      · simp [setBlock, alookup, h, h2, hne]
      · simp [setBlock, alookup, h, h2, ih]

theorem addBlocks_lookup : ∀ (l : List (Key × BlockData)) (q : List (Key × BlockData)) (k : Key),
    alookup k (l.foldl (fun acc kb => setBlock kb.1 kb.2 acc) q)
    = match lastBlockFor k l with
      | some b => some b
      | none => alookup k q := by
  intro l
  induction l with
  | nil => intro q k; simp [lastBlockFor]
  | cons kb l ih =>
    intro q k
    rw [List.foldl_cons, ih, lastBlockFor]
    cases lastBlockFor k l with
    | some b => rfl
    | none =>
      by_cases h : kb.1 = k
      · subst h
        rw [if_pos rfl]
        exact alookup_setBlock_self _ _ _
      · rw [if_neg h]
        exact alookup_setBlock_ne _ _ _ (fun hh => h hh.symm) _

theorem wlFind_insertEntry (e : WEntry) (k : Key) :
    ∀ l : List WEntry, wlFind k (insertEntry e l)
      = if e.key = k then some e else wlFind k l := by
  intro l
  induction l with
  | nil =>
    by_cases h : e.key = k
    · simp [insertEntry, wlFind, h]
    · simp [insertEntry, wlFind, h]
  | cons e2 rest ih =>
    by_cases h : e2.key = e.key
    · rw [insertEntry, if_pos h]
      by_cases h2 : e.key = k
      · simp [wlFind, h2]
      · have h3 : ¬ e2.key = k := by rw [h]; exact h2
        simp [wlFind, h2, h3]
    · rw [insertEntry, if_neg h]
      by_cases h2 : e2.key = k
      · have h3 : ¬ e.key = k := by
          intro hh
          exact h (by rw [h2, hh])
        simp [wlFind, h2, h3]
      · simp [wlFind, h2, ih]

theorem mergeWantlist_lookup : ∀ (l : List WEntry) (w : BsMessage) (k : Key),
    wlLookup (l.foldl
        (fun acc e => if e.cancel then acc.cancel e.key else acc.addEntry e.key e.priority) w) k
    = match lastEntryFor k l with
      | some e => some (if e.cancel then { key := k, priority := 0, cancel := true }
                        else { key := k, priority := e.priority, cancel := false })
      | none => wlLookup w k := by
  intro l
  induction l with
  | nil => intro w k; simp [lastEntryFor]
  | cons e l ih =>
    intro w k
    rw [List.foldl_cons, ih, lastEntryFor]
    cases lastEntryFor k l with
    | some e2 => rfl
    | none =>
      by_cases h : e.key = k
      · subst h
        by_cases hc : e.cancel
        · rw [if_pos hc]
          unfold wlLookup BsMessage.cancel
          rw [wlFind_insertEntry]
          simp [hc]
        · rw [if_neg hc]
          unfold wlLookup BsMessage.addEntry
          rw [wlFind_insertEntry]
          simp [hc]
      · by_cases hc : e.cancel
        · rw [if_pos hc]
          unfold wlLookup BsMessage.cancel
          rw [wlFind_insertEntry, if_neg h, if_neg h]
        · rw [if_neg hc]
          unfold wlLookup BsMessage.addEntry
          rw [wlFind_insertEntry, if_neg h, if_neg h]

/-- Claim C5: `AddMessage` first moves the message's block payloads into the
queue's key-indexed payload map with the last block winning per key; it
adopts the (block-cleared) message as the pending wantlist message when the
queue has none or the message is `Full`; otherwise it merges each wantlist
entry into the pending message, `Cancel` entries via `Cancel(key)` and
others via `AddEntry(key, priority)`. -/
theorem claim_C5_addMessage (mq : MsgQueue) (m : BsMessage) :
    (∀ k : Key, alookup k (mq.addMessage m).blocks
        = match lastBlockFor k m.blocks with
          | some b => some b
          | none => alookup k mq.blocks)
    ∧ (mq.wlmsg = none ∨ m.full = true → (mq.addMessage m).wlmsg = some { m with blocks := [] })
    ∧ (∀ w : BsMessage, mq.wlmsg = some w → m.full = false →
        ∃ w2, (mq.addMessage m).wlmsg = some w2
          ∧ ∀ k : Key, wlLookup w2 k
              = match lastEntryFor k m.wantlist with
                | some e => some (if e.cancel then { key := k, priority := 0, cancel := true }
                                  else { key := k, priority := e.priority, cancel := false })
                | none => wlLookup w k) := by
  refine ⟨?_, ?_, ?_⟩
  · intro k
    unfold MsgQueue.addMessage
    cases mq.wlmsg with
    | none =>
      exact addBlocks_lookup m.blocks mq.blocks k
    | some w =>
      cases hf : m.full with
      | true => exact addBlocks_lookup m.blocks mq.blocks k
      | false => exact addBlocks_lookup m.blocks mq.blocks k
  · intro hyp
    unfold MsgQueue.addMessage
    cases hq : mq.wlmsg with
    | none => rfl
    | some w =>
      rcases hyp with hyp | hyp
      · rw [hq] at hyp
        exact absurd hyp (by simp)
      · rw [hyp]
        rfl
  · intro w hq hf
    unfold MsgQueue.addMessage
    rw [hq, hf]
    exact ⟨_, rfl, fun k => mergeWantlist_lookup m.wantlist w k⟩

/-- Concrete check of C5: a first message is adopted as the pending
wantlist with its blocks moved to the payload map; a later incremental
message merges and keeps the queue's wantlist message present. -/
theorem claim_C5_witness :
    alookup "b" ((({ wlmsg := none, blocks := [] } : MsgQueue)).addMessage
        { full := false, wantlist := [{ key := "a", priority := 3, cancel := false }],
          blocks := [("b", "B1"), ("b", "B2")] }).blocks = some "B2"
    ∧ ((({ wlmsg := none, blocks := [] } : MsgQueue)).addMessage
        { full := false, wantlist := [{ key := "a", priority := 3, cancel := false }],
          blocks := [("b", "B1"), ("b", "B2")] }).wlmsg
      = some { full := false,
               wantlist := [{ key := "a", priority := 3, cancel := false }],
               blocks := [] }
    ∧ ((({ wlmsg := some { full := false, wantlist := [], blocks := [] }, blocks := [] } : MsgQueue)).addMessage
        { full := false, wantlist := [{ key := "c", priority := 2, cancel := false }],
          blocks := [] }).wlmsg.isSome = true := by
  refine ⟨?_, ?_, ?_⟩
  · have h := (claim_C5_addMessage { wlmsg := none, blocks := [] }
      { full := false, wantlist := [{ key := "a", priority := 3, cancel := false }],
        blocks := [("b", "B1"), ("b", "B2")] }).1 "b"
    rw [h]
    decide
  · exact (claim_C5_addMessage { wlmsg := none, blocks := [] }
      { full := false, wantlist := [{ key := "a", priority := 3, cancel := false }],
        blocks := [("b", "B1"), ("b", "B2")] }).2.1 (Or.inl rfl)
  · obtain ⟨w2, hw2, hlook⟩ := (claim_C5_addMessage
      { wlmsg := some { full := false, wantlist := [], blocks := [] }, blocks := [] }
      { full := false, wantlist := [{ key := "c", priority := 2, cancel := false }], blocks := [] }).2.2
      { full := false, wantlist := [], blocks := [] } rfl rfl
    rw [hw2]
    rfl

/-! ### The public `Bitswap` surface: `HasBlock`, `GetBlocks`, `GetBlock`, `Close` -/

structure Block where
  key : Key
  data : String
deriving DecidableEq, Repr

inductive BsError where
  | closed
  | ctxDone
deriving DecidableEq, Repr

/-- Observable state of a `Bitswap` instance: the process-closing flag, the
block store, the local wantlist, the blocks published to the notification
waiters (in order), the `newBlocks` channel feeding the provide pipeline,
and the `batchRequests` channel. -/
structure BWorld where
  closing : Bool
  store : List Block
  wantlist : List Key
  published : List Key
  newBlocks : List Key
  batchReqs : List (List Key)
deriving DecidableEq, Repr

/-- `blockstore.Has` (by key). -/
def storeHas (w : BWorld) (k : Key) : Bool := w.store.any (fun b => b.key == k)

inductive BsEvent where
  | put (b : Block)
  | wlremove (k : Key)
  | publish (k : Key)
  | enqueueNew (k : Key)
deriving DecidableEq, Repr

def applyEvent (w : BWorld) : BsEvent → BWorld
  | BsEvent.put b => { w with store := b :: w.store }
  | BsEvent.wlremove k => { w with wantlist := w.wantlist.filter (fun k2 => k2 != k) }
  | BsEvent.publish k => { w with published := w.published ++ [k] }
  | BsEvent.enqueueNew k => { w with newBlocks := w.newBlocks ++ [k] }

/-- The effects of one `HasBlock(ctx, blk)` call in program order: after the
closing check, `blockstore.Put`, `wantlist.Remove`, `notifications.Publish`,
then the send on `newBlocks` (`accept` is whether the channel accepts the
block before the caller's context ends). -/
def hasBlockTrace (w : BWorld) (b : Block) (accept : Bool) : List BsEvent :=
  if w.closing then []
  else [BsEvent.put b, BsEvent.wlremove b.key, BsEvent.publish b.key]
    ++ (if accept then [BsEvent.enqueueNew b.key] else [])

/-- `Bitswap.HasBlock`: error when closing; otherwise put the block, remove
its key from the local wantlist, publish it to the waiters, then offer it to
the `newBlocks` channel, returning the context's error if the context ends
first. -/
def hasBlock (w : BWorld) (b : Block) (accept : Bool) : Except BsError Unit × BWorld :=
  if w.closing then (Except.error BsError.closed, w)
  else
    let w1 := { w with store := b :: w.store }
    let w2 := { w1 with wantlist := w1.wantlist.filter (fun k2 => k2 != b.key) }
    let w3 := { w2 with published := w2.published ++ [b.key] }
    if accept then (Except.ok (), { w3 with newBlocks := w3.newBlocks ++ [b.key] })
    else (Except.error BsError.ctxDone, w3)

/-- `Bitswap.GetBlocks`: error when closing; otherwise subscribe and offer
the batch request (`accept` is whether the bounded `batchRequests` channel
accepts it before the context ends). -/
def getBlocks (w : BWorld) (keys : List Key) (accept : Bool) :
    Except BsError (List Key) × BWorld :=
  if w.closing then (Except.error BsError.closed, w)
  else if accept then (Except.ok keys, { w with batchReqs := w.batchReqs ++ [keys] })
  else (Except.error BsError.ctxDone, w)

/-- `Bitswap.GetBlock` delegates to `GetBlocks` on the single key and
propagates its error; on success it awaits delivery on the promise (out of
scope of the closed-engine claim). -/
def getBlock (w : BWorld) (k : Key) (accept : Bool) : Except BsError Unit × BWorld :=
  match getBlocks w [k] accept with
  | (Except.error e, w2) => (Except.error e, w2)
  | (Except.ok _, w2) => (Except.ok (), w2)

/-- `Bitswap.Close`: the goprocess teardown closes the `Closing` channel,
which the public operations observe in their opening select. -/
def closeBs (w : BWorld) : BWorld := { w with closing := true }

/-- Claim C6: within one `HasBlock` call, wherever the publish-to-waiters
event occurs in the effect trace, the state built from all preceding events
already contains the block in the store and no longer has its key in the
local wantlist: the block is stored and the wantlist entry removed before
any waiter receives the block.  The final state of `hasBlock` is exactly
the fold of its effect trace. -/
theorem claim_C6_store_before_publish (w : BWorld) (b : Block) (accept : Bool)
    (hcl : w.closing = false) (pre post : List BsEvent)
    (hsplit : hasBlockTrace w b accept = pre ++ BsEvent.publish b.key :: post) :
    storeHas (pre.foldl applyEvent w) b.key = true
    ∧ b.key ∉ (pre.foldl applyEvent w).wantlist
    ∧ (hasBlock w b accept).2 = (hasBlockTrace w b accept).foldl applyEvent w := by
  have htr : hasBlockTrace w b accept
      = [BsEvent.put b, BsEvent.wlremove b.key, BsEvent.publish b.key]
        ++ (if accept then [BsEvent.enqueueNew b.key] else []) := by
    unfold hasBlockTrace
    rw [hcl]
    rfl
  have hpre : pre = [BsEvent.put b, BsEvent.wlremove b.key] := by
    rw [htr] at hsplit
    rcases pre with _ | ⟨e1, _ | ⟨e2, _ | ⟨e3, pre4⟩⟩⟩
    · simp at hsplit
    · simp at hsplit
    · simp at hsplit
      obtain ⟨h1, h2, -⟩ := hsplit
      simp_all
    · exfalso
      cases accept with
      | true =>
        simp at hsplit
        obtain ⟨-, -, -, hrest⟩ := hsplit
        rcases pre4 with _ | ⟨e4, pre5⟩
        · simp at hrest
        · simp at hrest
      | false =>
        simp at hsplit
  refine ⟨?_, ?_, ?_⟩
  · rw [hpre]
    simp [applyEvent, storeHas]
  · rw [hpre]
    simp [applyEvent]
  · unfold hasBlock
    rw [htr, if_neg (show ¬ w.closing = true by rw [hcl]; simp)]
    cases accept with
    | true => rfl
    | false => rfl

/-- Concrete check of C6 on a world whose wantlist holds the key. -/
theorem claim_C6_witness :
    storeHas (([BsEvent.put { key := "k", data := "D" }, BsEvent.wlremove "k"]).foldl applyEvent
        { closing := false, store := [], wantlist := ["k"], published := [],
          newBlocks := [], batchReqs := [] }) "k" = true
    ∧ "k" ∉ (([BsEvent.put { key := "k", data := "D" }, BsEvent.wlremove "k"]).foldl applyEvent
        { closing := false, store := [], wantlist := ["k"], published := [],
          newBlocks := [], batchReqs := [] }).wantlist := by
  have h := claim_C6_store_before_publish
    { closing := false, store := [], wantlist := ["k"], published := [], newBlocks := [], batchReqs := [] }
    { key := "k", data := "D" } true rfl
    [BsEvent.put { key := "k", data := "D" }, BsEvent.wlremove "k"]
    [BsEvent.enqueueNew "k"] (by decide)
  exact ⟨h.1, h.2.1⟩

/-- Claim C7: after `Close()`, every subsequent `GetBlock`, `GetBlocks` and
`HasBlock` call returns the engine-closed error immediately and leaves the
state unchanged. -/
theorem claim_C7_closed_errors (w : BWorld) (keys : List Key) (k : Key) (b : Block)
    (accept : Bool) :
    (closeBs w).closing = true
    ∧ getBlocks (closeBs w) keys accept = (Except.error BsError.closed, closeBs w)
    ∧ getBlock (closeBs w) k accept = (Except.error BsError.closed, closeBs w)
    ∧ hasBlock (closeBs w) b accept = (Except.error BsError.closed, closeBs w) := by
  refine ⟨rfl, rfl, ?_, rfl⟩
  unfold getBlock getBlocks
  rfl

/-- Claim C10: when the caller's context ends before the `newBlocks` channel
accepts the block, `HasBlock` returns the context error, yet the block is
already stored, its key already removed from the local wantlist, and the
block already published to the waiters; only the provide-announce enqueue is
lost. -/
theorem claim_C10_hasblock_partial (w : BWorld) (b : Block) (hcl : w.closing = false) :
    (hasBlock w b false).1 = Except.error BsError.ctxDone
    ∧ storeHas (hasBlock w b false).2 b.key = true
    ∧ b.key ∉ (hasBlock w b false).2.wantlist
    ∧ (hasBlock w b false).2.published = w.published ++ [b.key]
    ∧ (hasBlock w b false).2.newBlocks = w.newBlocks
    ∧ (hasBlock w b false).2.batchReqs = w.batchReqs := by
  unfold hasBlock
  rw [hcl]
  refine ⟨rfl, ?_, ?_, rfl, rfl, rfl⟩
  · simp [storeHas]
  · simp

/-- Concrete check of C10. -/
theorem claim_C10_witness :
    (hasBlock
        { closing := false, store := [], wantlist := ["k"], published := [],
          newBlocks := [], batchReqs := [] }
        { key := "k", data := "D" } false).1
      = Except.error BsError.ctxDone
    ∧ (hasBlock
        { closing := false, store := [], wantlist := ["k"], published := [],
          newBlocks := [], batchReqs := [] }
        { key := "k", data := "D" } false).2.published
      = ["k"] := by
  have h := claim_C10_hasblock_partial
    { closing := false, store := [], wantlist := ["k"], published := [], newBlocks := [], batchReqs := [] }
    { key := "k", data := "D" } rfl
  exact ⟨h.1, h.2.2.2.1⟩

/-! ### Concrete witnesses for the scheduler claims -/

/-- Concrete check of C1 after one `Push`. -/
theorem claim_C1_witness :
    ((({ active := 0, activeBlocks := [], requests := 1, taskQueue := [0] } : ActivePartner)).taskQueue.filter
        (taskMatches (Prq.push newPRQ { key := "k", priority := 5 } "p").tasks "p" "k")).length ≤ 1
    ∧ (Prq.push (Prq.push newPRQ { key := "k", priority := 5 } "p") { key := "k", priority := 7 } "p").taskMap
        = (Prq.push newPRQ { key := "k", priority := 5 } "p").taskMap := by
  have h := claim_C1_at_most_one_task (Prq.push newPRQ { key := "k", priority := 5 } "p")
    (Relation.ReflTransGen.single (Step.push newPRQ { key := "k", priority := 5 } "p"))
    "p" "k" { active := 0, activeBlocks := [], requests := 1, taskQueue := [0] } (by decide)
  exact ⟨h.1, (h.2.1 7 0 (by decide)).1⟩

/-- Concrete check of C2's comparator facts and empty-scheduler `Pop`. -/
theorem claim_C2_witness :
    partnerCompare { active := 0, activeBlocks := [], requests := 0, taskQueue := [] }
        { active := 0, activeBlocks := [], requests := 3, taskQueue := [] } = false
    ∧ partnerCompare { active := 0, activeBlocks := [], requests := 3, taskQueue := [] }
        { active := 0, activeBlocks := [], requests := 0, taskQueue := [] } = true
    ∧ (partnerCompare { active := 1, activeBlocks := [], requests := 3, taskQueue := [] }
        { active := 2, activeBlocks := [], requests := 4, taskQueue := [] } = true ↔ (1 : Int) < 2)
    ∧ (Prq.pop newPRQ).1 = none := by
  have h := claim_C2_partner_ranking newPRQ
  refine ⟨h.1 _ _ rfl, h.2.1 _ _ (by norm_num) rfl, ?_, ?_⟩
  · exact h.2.2.1 { active := 1, activeBlocks := [], requests := 3, taskQueue := [] }
      { active := 2, activeBlocks := [], requests := 4, taskQueue := [] } (by norm_num) (by norm_num)
  · refine h.2.2.2.2 ?_
    intro p hp
    simp [newPRQ] at hp

/-- Concrete check of C3: push one entry, pop it, complete it. -/
theorem claim_C3_witness :
    "k" ∈ (getPartner
      { tasks := [(0, { entry := { key := "k", priority := 5 }, target := "p", created := 0, trash := false })],
        nextId := 1, taskMap := [],
        partners := [("p", { active := 1, activeBlocks := ["k"], requests := 0, taskQueue := [] })],
        pQueue := ["p"], clock := 1 } "p").activeBlocks
    ∧ "k" ∉ (getPartner
      { tasks := [(0, { entry := { key := "k", priority := 5 }, target := "p", created := 0, trash := false })],
        nextId := 1, taskMap := [],
        partners := [("p", { active := 0, activeBlocks := [], requests := 0, taskQueue := [] })],
        pQueue := ["p"], clock := 1 } "p").activeBlocks := by
  have h := claim_C3_pop_active_until_done (Prq.push newPRQ { key := "k", priority := 5 } "p")
    (Relation.ReflTransGen.single (Step.push newPRQ { key := "k", priority := 5 } "p"))
    { entry := { key := "k", priority := 5 }, target := "p", created := 0, trash := false }
    { tasks := [(0, { entry := { key := "k", priority := 5 }, target := "p", created := 0, trash := false })],
      nextId := 1, taskMap := [],
      partners := [("p", { active := 1, activeBlocks := ["k"], requests := 0, taskQueue := [] })],
      pQueue := ["p"], clock := 1 }
    (by decide)
    { tasks := [(0, { entry := { key := "k", priority := 5 }, target := "p", created := 0, trash := false })],
      nextId := 1, taskMap := [],
      partners := [("p", { active := 0, activeBlocks := [], requests := 0, taskQueue := [] })],
      pQueue := ["p"], clock := 1 }
    (by decide)
  exact ⟨h.1, h.2.2.1⟩

/-- Concrete check of C8: the trap fires on a zero counter and is
unreachable after a matched `StartTask`. -/
theorem claim_C8_witness :
    Prq.taskDone newPRQ "x" "y" = none
    ∧ (0 : Int) ≤ (getPartner
      { tasks := [(0, { entry := { key := "k", priority := 5 }, target := "p", created := 0, trash := false })],
        nextId := 1, taskMap := [],
        partners := [("p", { active := 1, activeBlocks := ["k"], requests := 0, taskQueue := [] })],
        pQueue := ["p"], clock := 1 } "p").active
    ∧ Prq.taskDone
      { tasks := [(0, { entry := { key := "k", priority := 5 }, target := "p", created := 0, trash := false })],
        nextId := 1, taskMap := [],
        partners := [("p", { active := 1, activeBlocks := ["k"], requests := 0, taskQueue := [] })],
        pQueue := ["p"], clock := 1 } "p" "k" ≠ none := by
  have hstep : GStep (Prq.push newPRQ { key := "k", priority := 5 } "p")
      { tasks := [(0, { entry := { key := "k", priority := 5 }, target := "p", created := 0, trash := false })],
        nextId := 1, taskMap := [],
        partners := [("p", { active := 1, activeBlocks := ["k"], requests := 0, taskQueue := [] })],
        pQueue := ["p"], clock := 1 } := by
    have h0 := GStep.pop (Prq.push newPRQ { key := "k", priority := 5 } "p")
    have he : (Prq.pop (Prq.push newPRQ { key := "k", priority := 5 } "p")).2
        = { tasks := [(0, { entry := { key := "k", priority := 5 }, target := "p", created := 0, trash := false })],
            nextId := 1, taskMap := [],
            partners := [("p", { active := 1, activeBlocks := ["k"], requests := 0, taskQueue := [] })],
            pQueue := ["p"], clock := 1 } := by decide
    rw [he] at h0
    exact h0
  have hG : GReachable
      { tasks := [(0, { entry := { key := "k", priority := 5 }, target := "p", created := 0, trash := false })],
        nextId := 1, taskMap := [],
        partners := [("p", { active := 1, activeBlocks := ["k"], requests := 0, taskQueue := [] })],
        pQueue := ["p"], clock := 1 } :=
    Relation.ReflTransGen.tail
      (Relation.ReflTransGen.single (GStep.push newPRQ { key := "k", priority := 5 } "p")) hstep
  have h := claim_C8_taskdone_trap _ hG
  exact ⟨h.1 newPRQ "x" "y" (by decide), h.2.1 "p", h.2.2 "p" "k" (by decide)⟩

/-- Concrete check of C9: push, remove (trash), then push again. -/
theorem claim_C9_witness :
    alookup 0 (Prq.push
      { tasks := [(0, { entry := { key := "k", priority := 5 }, target := "p", created := 0, trash := true })],
        nextId := 1, taskMap := [("pk", 0)],
        partners := [("p", { active := 0, activeBlocks := [], requests := 0, taskQueue := [0] })],
        pQueue := ["p"], clock := 1 } { key := "k", priority := 9 } "p").tasks
      = some { entry := { key := "k", priority := 9 }, target := "p", created := 0, trash := true }
    ∧ (Prq.push
      { tasks := [(0, { entry := { key := "k", priority := 5 }, target := "p", created := 0, trash := true })],
        nextId := 1, taskMap := [("pk", 0)],
        partners := [("p", { active := 0, activeBlocks := [], requests := 0, taskQueue := [0] })],
        pQueue := ["p"], clock := 1 } { key := "k", priority := 9 } "p").partners
      = [("p", { active := 0, activeBlocks := [], requests := 0, taskQueue := [0] })]
    ∧ ({ entry := { key := "k", priority := 5 }, target := "p", created := 0, trash := false } : PeerRequestTask).trash
      = false := by
  have h := claim_C9_push_on_trashed
    { tasks := [(0, { entry := { key := "k", priority := 5 }, target := "p", created := 0, trash := true })],
      nextId := 1, taskMap := [("pk", 0)],
      partners := [("p", { active := 0, activeBlocks := [], requests := 0, taskQueue := [0] })],
      pQueue := ["p"], clock := 1 }
    "p" "k" 0
    { entry := { key := "k", priority := 5 }, target := "p", created := 0, trash := true }
    { active := 0, activeBlocks := [], requests := 0, taskQueue := [0] }
    9 (by decide) (by decide) rfl (by decide)
  refine ⟨h.1, h.2.2.2.1, ?_⟩
  exact h.2.2.2.2.2.2 (Prq.push newPRQ { key := "k", priority := 5 } "p")
    { tasks := [(0, { entry := { key := "k", priority := 5 }, target := "p", created := 0, trash := false })],
      nextId := 1, taskMap := [],
      partners := [("p", { active := 1, activeBlocks := ["k"], requests := 0, taskQueue := [] })],
      pQueue := ["p"], clock := 1 }
    { entry := { key := "k", priority := 5 }, target := "p", created := 0, trash := false }
    (by decide)

end Bitswap
